import Mathlib

/-!
# simplels: a verification development

Shallow embedding of `ls.c` and `utils.c`.

* A `char*` is modelled by the bytes found in memory from the pointer onwards
  (`Mem`); the C string it denotes is the part before the first NUL (`cstr`).
  The end of the list reads as NUL.
* `int`, `long`/`off_t` and `time_t` values are integers; conversions to a
  narrower type wrap explicitly (`toInt32`, `toInt64`).
* A call that does not return to its caller (`exit(1)`, a recursion that never
  ends, an operation whose behaviour C leaves undefined) yields `none`.
* The file system, the identity database and the contents of freshly allocated
  memory are inputs of the model (`Sys`, the `malloc` results).
* The program never calls `setlocale`, so it runs in the "C" locale, in which
  `strcoll` is `strcmp` and `tolower` only maps `A`..`Z`.
* A run of `main` takes `argv` and the result of `scandir`, which holds the
  entries in the order the sort left them; it yields the exit status and the
  bytes written to standard output and standard error.
-/

namespace Simplels

/-! ## Machine integers -/

/-- Conversion of an integer value to `int` (32 bits, two's complement). -/
def toInt32 (x : Int) : Int := (x + 2147483648) % 4294967296 - 2147483648

/-- Conversion of an integer value to `long` / `off_t` (64 bits). -/
def toInt64 (x : Int) : Int :=
  (x + 9223372036854775808) % 18446744073709551616 - 9223372036854775808

/-! ## C strings -/

/-- Bytes in memory starting at a `char*`; past the end of the list every byte
reads as NUL. -/
abbrev Mem := List Nat

/-- The C string at a pointer: the bytes before the first NUL. -/
def cstr (m : Mem) : List Nat := m.takeWhile (fun c => decide (c ≠ 0))

/-- The bytes of an ASCII string literal. -/
def lit (s : String) : Mem := s.toList.map Char.toNat

/-- `strlen` of `<string.h>`. -/
def strlen (m : Mem) : Nat := (cstr m).length

/-- `tolower` of `<ctype.h>` in the "C" locale. -/
def tolower (c : Nat) : Nat := if 65 ≤ c ∧ c ≤ 90 then c + 32 else c

/-- `strncpy(t, s, n)` of `<string.h>`: exactly `n` bytes are written at `t`,
the characters of `s` followed by NULs when `s` is shorter than `n`; the bytes
of `t` from offset `n` on are left as they were. The result is the memory at
`t` afterwards. -/
def strncpy (t s : Mem) (n : Nat) : Mem :=
  (cstr s).take n ++ List.replicate (n - strlen s) 0 ++ t.drop n

/-- The loop of `strtolower`: `while (t[i] != 0) { t[i] = tolower(t[i]); i++; }`. -/
def strtolower_loop : Mem → Mem
  | [] => []
  | c :: m => if c = 0 then c :: m else tolower c :: strtolower_loop m

/-- `strtolower(s, t)` of `utils.c`; `t` is the memory at the destination
before the call, the result is the memory there after it (the pointer `t` is
what the function returns). The length passed to `strncpy` is computed from
the destination, `strlen(t) + 1`. -/
def strtolower (s t : Mem) : Mem :=
  strtolower_loop (strncpy t s (strlen t + 1))

/-- `strcmp` of `<string.h>`: the difference of the first pair of bytes that
differ, `0` when both strings end together. -/
def strcmp : Mem → Mem → Int
  | [], [] => 0
  | [], d :: _ => 0 - (d : Int)
  | c :: _, [] => (c : Int)
  | c :: a, d :: b =>
    if c ≠ d then (c : Int) - (d : Int) else if c = 0 then 0 else strcmp a b

/-- `strcoll` of `<string.h>` in the "C" locale. -/
def strcoll (a b : Mem) : Int := strcmp a b

/-- `strrchr(m, c)` of `<string.h>`: the memory from the last occurrence of
`c` in the string at `m`, `none` for the null pointer. -/
def strrchr : Mem → Nat → Option Mem
  | [], c => if c = 0 then some [] else none
  | x :: m, c =>
    if x = 0 then (if c = 0 then some (x :: m) else none)
    else match strrchr m c with
      | some r => some r
      | none => if x = c then some (x :: m) else none

/-! ## Data model -/

/-- The fields of `struct dirent` the program reads. -/
structure Dirent where
  d_name : Mem
  d_fileno : Nat
  deriving DecidableEq, Repr

/-- The fields of `struct stat` the program reads. -/
structure Stat where
  st_mode : Nat
  st_nlink : Nat
  st_uid : Nat
  st_gid : Nat
  st_size : Int
  st_mtime : Int
  deriving DecidableEq, Repr

/-- The system calls and library lookups whose results the program consumes:
`stat` and `lstat` give the record they fill in, or `none` when they return
`-1`; `getpwuid` and `getgrgid` give the name of the record found, or `none`
for the null pointer. -/
structure Sys where
  stat : Mem → Option Stat
  lstat : Mem → Option Stat
  getpwuid : Nat → Option Mem
  getgrgid : Nat → Option Mem

/-- `getstats(path)` of `ls.c`. In `stat(path, &stats) || lstat(path, &stats)`
a failing `stat` (non-zero) short-circuits into `exit(1)`; a succeeding `stat`
(zero) lets `lstat` run, which overwrites `stats` and decides the outcome. -/
def getstats (sys : Sys) (path : Mem) : Option Stat :=
  match sys.stat path with
  | none => none
  | some _ => sys.lstat path

/-- `getfilestats(name)` of `ls.c`, with the global `dir` as a parameter; the
path is `sprintf(path, "%s/%s", dir, name)`. -/
def getfilestats (sys : Sys) (dir name : Mem) : Option Stat :=
  getstats sys (cstr dir ++ [47] ++ cstr name)

/-! ## Comparators -/

/-- `ialphasort(a, b)` of `ls.c`. `ma` and `mb` are the results of the two
`malloc` calls: the contents of the fresh block, or `none` for the null
pointer (the function then exits). -/
def ialphasort (ma mb : Option Mem) (a b : Dirent) : Option Int :=
  match ma, mb with
  | some a_lower, some b_lower =>
    some (strcoll (strtolower a.d_name a_lower) (strtolower b.d_name b_lower))
  | _, _ => none

/-- `sizesort(a, b)` of `ls.c`: the difference of the two `off_t` sizes is
stored in `int result`. -/
def sizesort (sys : Sys) (dir : Mem) (ma mb : Option Mem) (a b : Dirent) : Option Int :=
  match getfilestats sys dir b.d_name, getfilestats sys dir a.d_name with
  | some sb, some sa =>
    let result := toInt32 (toInt64 (sb.st_size - sa.st_size))
    if result = 0 then ialphasort ma mb a b else some result
  | _, _ => none

/-- `difftime(time1, time0)` of `<time.h>`: the difference in seconds, as a
`double`. Both arguments are whole seconds, so the value is an integer; it is
exact whenever it is below `2^53` in magnitude, and a rounded larger value is
still far outside the range of `int`. -/
def difftime (time1 time0 : Int) : Int := time1 - time0

/-- Conversion of an integral `double` to `int`: the value itself when `int`
can represent it, undefined otherwise (C11 6.3.1.4). -/
def doubleToInt (d : Int) : Option Int :=
  if -2147483648 ≤ d ∧ d ≤ 2147483647 then some d else none

/-- `mtimesort(a, b)` of `ls.c`: the `double` returned by `difftime` is stored
in `int result`. -/
def mtimesort (sys : Sys) (dir : Mem) (ma mb : Option Mem) (a b : Dirent) : Option Int :=
  match getfilestats sys dir b.d_name, getfilestats sys dir a.d_name with
  | some sb, some sa =>
    match doubleToInt (difftime sb.st_mtime sa.st_mtime) with
    | some result => if result = 0 then ialphasort ma mb a b else some result
    | none => none
  | _, _ => none

/-- `getext(filename)` of `ls.c`: the empty string when `strrchr` finds no
`'.'`, else the pointer just past the last `'.'`. -/
def getext (filename : Mem) : Mem :=
  match strrchr filename 46 with
  | none => []
  | some ext => ext.tail

/-- `extsort(a, b)` of `ls.c`. -/
def extsort (ma mb : Option Mem) (a b : Dirent) : Option Int :=
  let result := strcoll (getext a.d_name) (getext b.d_name)
  if result = 0 then ialphasort ma mb a b else some result

/-! ## File modes (`<sys/stat.h>`)

The permission bits have the values POSIX fixes; the file types have those of
Linux. -/

/-- The mask of the file type bits of `st_mode`. -/
def S_IFMT : Nat := 0o170000
/-- File type: socket. -/
def S_IFSOCK : Nat := 0o140000
/-- File type: symbolic link. -/
def S_IFLNK : Nat := 0o120000
/-- File type: regular file. -/
def S_IFREG : Nat := 0o100000
/-- File type: block device. -/
def S_IFBLK : Nat := 0o060000
/-- File type: directory. -/
def S_IFDIR : Nat := 0o040000
/-- File type: character device. -/
def S_IFCHR : Nat := 0o020000
/-- File type: FIFO. -/
def S_IFIFO : Nat := 0o010000

/-- Permission bit: read, owner. -/
def S_IRUSR : Nat := 0o400
/-- Permission bit: write, owner. -/
def S_IWUSR : Nat := 0o200
/-- Permission bit: execute, owner. -/
def S_IXUSR : Nat := 0o100
/-- Permission bit: read, group. -/
def S_IRGRP : Nat := 0o040
/-- Permission bit: write, group. -/
def S_IWGRP : Nat := 0o020
/-- Permission bit: execute, group. -/
def S_IXGRP : Nat := 0o010
/-- Permission bit: read, others. -/
def S_IROTH : Nat := 0o004
/-- Permission bit: write, others. -/
def S_IWOTH : Nat := 0o002
/-- Permission bit: execute, others. -/
def S_IXOTH : Nat := 0o001

/-- The macro `S_ISDIR(m)`. -/
def S_ISDIR (m : Nat) : Bool := m &&& S_IFMT == S_IFDIR
/-- The macro `S_ISLNK(m)`. -/
def S_ISLNK (m : Nat) : Bool := m &&& S_IFMT == S_IFLNK
/-- The macro `S_ISSOCK(m)`. -/
def S_ISSOCK (m : Nat) : Bool := m &&& S_IFMT == S_IFSOCK
/-- The macro `S_ISFIFO(m)`. -/
def S_ISFIFO (m : Nat) : Bool := m &&& S_IFMT == S_IFIFO
/-- The macro `S_ISBLK(m)`. -/
def S_ISBLK (m : Nat) : Bool := m &&& S_IFMT == S_IFBLK
/-- The macro `S_ISCHR(m)`. -/
def S_ISCHR (m : Nat) : Bool := m &&& S_IFMT == S_IFCHR

/-! ## Classifier and formatter -/

/-- `getclass(stats)` of `ls.c`; the result is the character returned
(`47` is `/`, `64` is `@`, `61` is `=`, `124` is `|`, `42` is `*`, `0` is NUL). -/
def getclass (stats : Stat) : Nat :=
  let mode := stats.st_mode
  if S_ISDIR mode then 47
  else if S_ISLNK mode then 64
  else if S_ISSOCK mode then 61
  else if S_ISFIFO mode then 124
  else if mode &&& S_IXUSR ≠ 0 ∨ mode &&& S_IXGRP ≠ 0 ∨ mode &&& S_IXOTH ≠ 0 then 42
  else 0

/-- `modestr(mode_bits, mode_str)` of `ls.c`: the eleven bytes stored at
`mode_str[0]` .. `mode_str[10]` (`98 99 100 108 112 115` are `b c d l p s`,
`114 119 120` are `r w x`, `45` is `-`). -/
def modestr (mode_bits : Nat) : Mem :=
  [ (if S_ISBLK mode_bits then 98
     else if S_ISCHR mode_bits then 99
     else if S_ISDIR mode_bits then 100
     else if S_ISLNK mode_bits then 108
     else if S_ISFIFO mode_bits then 112
     else if S_ISSOCK mode_bits then 115
     else 45),
    (if S_IRUSR &&& mode_bits ≠ 0 then 114 else 45),
    (if S_IWUSR &&& mode_bits ≠ 0 then 119 else 45),
    (if S_IXUSR &&& mode_bits ≠ 0 then 120 else 45),
    (if S_IRGRP &&& mode_bits ≠ 0 then 114 else 45),
    (if S_IWGRP &&& mode_bits ≠ 0 then 119 else 45),
    (if S_IXGRP &&& mode_bits ≠ 0 then 120 else 45),
    (if S_IROTH &&& mode_bits ≠ 0 then 114 else 45),
    (if S_IWOTH &&& mode_bits ≠ 0 then 119 else 45),
    (if S_IXOTH &&& mode_bits ≠ 0 then 120 else 45),
    0 ]

/-! ## Time -/

/-- The fields of `struct tm` the program reads. -/
structure Tm where
  tm_min : Int
  tm_hour : Int
  tm_mday : Int
  tm_mon : Int
  tm_year : Int
  deriving DecidableEq, Repr

/-- Day of the year, counted from 1 March, of day `doe` of a 400-year cycle of
the Gregorian calendar that starts on 1 March. -/
def doyOfEra (doe : Int) : Int :=
  let dc := doe - min (doe / 36524) 3 * 36524
  let dq := dc % 1461
  dq - min (dq / 365) 3 * 365

/-- Year of the 400-year cycle, counted from 1 March, of its day `doe`. -/
def yoeOfEra (doe : Int) : Int :=
  let c := min (doe / 36524) 3
  let dc := doe - c * 36524
  let dq := dc % 1461
  c * 100 + dc / 1461 * 4 + min (dq / 365) 3

/-- The broken-down UTC time of `time` seconds since the Epoch (proleptic
Gregorian calendar, no leap seconds), as POSIX defines it. -/
def breakDown (time : Int) : Tm :=
  let days := time / 86400
  let rem := time % 86400
  let z := days + 719468
  let era := z / 146097
  let doe := z % 146097
  let doy := doyOfEra doe
  let mp := (5 * doy + 2) / 153
  let mon := if mp < 10 then mp + 2 else mp - 10
  let year := yoeOfEra doe + era * 400 + (if mon ≤ 1 then 1 else 0)
  { tm_min := rem % 3600 / 60, tm_hour := rem / 3600,
    tm_mday := doy - (153 * mp + 2) / 5 + 1,
    tm_mon := mon, tm_year := year - 1900 }

/-- `gmtime(&time)` of `<time.h>`: the broken-down UTC time, or `none` for the
null pointer it returns when the year does not fit `int tm_year`. -/
def gmtime (time : Int) : Option Tm :=
  let t := breakDown time
  if -2147483648 ≤ t.tm_year ∧ t.tm_year ≤ 2147483647 then some t else none

/-! ## printf conversions -/

/-- Decimal digits of `n`, most significant first, as characters; `fuel`
bounds the number of digits. -/
def natDecAux : Nat → Nat → List Nat
  | 0, _ => []
  | fuel + 1, n => if n < 10 then [48 + n] else natDecAux fuel (n / 10) ++ [48 + n % 10]

/-- The decimal rendering of a natural number. -/
def natDec (n : Nat) : List Nat := natDecAux (n + 1) n

/-- The conversions `%i` and `%ld`: decimal, `-` before a negative value, no
padding. -/
def fmt_i (v : Int) : List Nat :=
  if v < 0 then 45 :: natDec v.natAbs else natDec v.natAbs

/-- The conversion `%02i`: as `%i`, zero-padded after the sign to a total
width of two. -/
def fmt_02i (v : Int) : List Nat :=
  if v < 0 then 45 :: (List.replicate (1 - (natDec v.natAbs).length) 48 ++ natDec v.natAbs)
  else List.replicate (2 - (natDec v.natAbs).length) 48 ++ natDec v.natAbs

/-- `timestr(time, time_str)` of `ls.c`: the string `sprintf` stores at
`time_str` (a NUL follows it); `none` when `gmtime` returns the null pointer,
which the function dereferences. -/
def timestr (time : Int) : Option Mem :=
  match gmtime time with
  | none => none
  | some t =>
    some (fmt_i (toInt32 (1900 + t.tm_year)) ++ [45] ++ fmt_02i (toInt32 (1 + t.tm_mon))
      ++ [45] ++ fmt_02i t.tm_mday ++ [32] ++ fmt_02i t.tm_hour ++ [58] ++ fmt_02i t.tm_min)

/-! ## Column widths -/

/-- Number of times `n` can be divided by ten before it drops below ten;
`fuel` bounds the count. -/
def floorLog10Aux : Nat → Nat → Nat
  | 0, _ => 0
  | fuel + 1, n => if n < 10 then 0 else floorLog10Aux fuel (n / 10) + 1

/-- The value of `floor(log10((double) i))` for an `int` `i > 0`. The
conversion to `double` is exact for 32-bit integers, `log10` is exact at the
powers of ten, and every other positive `int` is further from a power of ten
than the rounding error of `log10`, so the floor is that of the real
logarithm. -/
def floorLog10 (n : Nat) : Nat := floorLog10Aux n n

/-- `intlen(i)` of `utils.c`. `fuel` bounds the depth of the recursion
`intlen(-i)`; `none` when the bound is reached. Negation and addition are
those of `int`. -/
def intlen : Nat → Int → Option Int
  | 0, _ => none
  | fuel + 1, i =>
    if i < 0 then
      match intlen fuel (toInt32 (-i)) with
      | some r => some (toInt32 (1 + r))
      | none => none
    else if i = 0 then some 1
    else some ((floorLog10 i.toNat : Int) + 1)

/-- The columns of the long listing (`enum field` of `ls.h`). -/
inductive field_t where
  | FILENO
  | SIZE
  | LINKS
  | USER
  | GROUP
  deriving DecidableEq, Repr

/-- `getuser(stats)` of `ls.c`; `none` when `getpwuid` finds no record and
the function exits. -/
def getuser (sys : Sys) (stats : Stat) : Option Mem := sys.getpwuid stats.st_uid

/-- `getgroup(stats)` of `ls.c`; `none` when `getgrgid` finds no record and
the function exits. -/
def getgroup (sys : Sys) (stats : Stat) : Option Mem := sys.getgrgid stats.st_gid

/-- The `switch` of `maxlen`: the length of field `f` of one entry. The
argument of `intlen` is converted to `int`, as is the `size_t` that `strlen`
returns. -/
def fieldlen (fuel : Nat) (sys : Sys) (e : Dirent) (stats : Stat) : field_t → Option Int
  | field_t.FILENO => intlen fuel (toInt32 e.d_fileno)
  | field_t.SIZE => intlen fuel (toInt32 stats.st_size)
  | field_t.LINKS => intlen fuel (toInt32 stats.st_nlink)
  | field_t.USER =>
    match getuser sys stats with
    | some user => some (toInt32 (strlen user))
    | none => none
  | field_t.GROUP =>
    match getgroup sys stats with
    | some group => some (toInt32 (strlen group))
    | none => none

/-- The loop of `maxlen` over the entries left, with the running `max`. -/
def maxlen_loop (fuel : Nat) (sys : Sys) (dir : Mem) (f : field_t) : List Dirent → Int → Option Int
  | [], max => some max
  | e :: es, max =>
    match getfilestats sys dir e.d_name with
    | none => none
    | some stats =>
      match fieldlen fuel sys e stats f with
      | none => none
      | some len => maxlen_loop fuel sys dir f es (if len > max then len else max)

/-- `maxlen(entries, n, f)` of `ls.c`; `fuel` is the recursion bound given to
`intlen`. -/
def maxlen (fuel : Nat) (sys : Sys) (dir : Mem) (entries : List Dirent) (f : field_t) : Option Int :=
  maxlen_loop fuel sys dir f entries 0

/-! ## Fixtures -/

/-- A directory `dir` holding the given files, every one a plain entry for
which `stat` and `lstat` agree. -/
def sysOf (dir : Mem) (files : List (Mem × Stat)) : Sys where
  stat := fun p => (files.find? (fun f => decide (cstr dir ++ [47] ++ cstr f.1 = p))).map Prod.snd
  lstat := fun p => (files.find? (fun f => decide (cstr dir ++ [47] ++ cstr f.1 = p))).map Prod.snd
  getpwuid := fun uid => if uid = 0 then some (lit "root") else none
  getgrgid := fun gid => if gid = 0 then some (lit "root") else none

/-- A regular file (mode `0100644`) of the given size and modification time,
owned by uid 0 and gid 0. -/
def plainFile (size mtime : Int) : Stat :=
  { st_mode := 33188, st_nlink := 1, st_uid := 0, st_gid := 0, st_size := size, st_mtime := mtime }

/-- The directory `.` with an empty file `a` and the files `b` of 2 GiB, `c`
of 4 GiB and `e` of 6 GiB. -/
def bigFiles : Sys :=
  sysOf (lit ".")
    [(lit "a", plainFile 0 0), (lit "b", plainFile 2147483648 0),
     (lit "c", plainFile 4294967296 0), (lit "e", plainFile 6442450944 0)]

/-- The directory `.` with two empty files: `a`, last modified at the Epoch,
and `b`, last modified `2^31` seconds later (19 January 2038). -/
def timeFiles : Sys :=
  sysOf (lit ".") [(lit "a", plainFile 0 0), (lit "b", plainFile 0 2147483648)]

/-- The directory `.` of the scenarios: `banana.txt` of size 10, `Apple.md` of
size 100 and `.hidden` of size 1. -/
def scenarioDir : Sys :=
  sysOf (lit ".")
    [(lit "banana.txt", plainFile 10 0), (lit "Apple.md", plainFile 100 0),
     (lit ".hidden", plainFile 1 0)]

/-! ## Command line -/

/-- The comparators `sort_function` can point to. -/
inductive sort_fn where
  | ialphasort
  | sizesort
  | mtimesort
  | extsort
  deriving DecidableEq, Repr

/-- The local variables of `main` that the command flags set. -/
structure Flags where
  all : Bool
  classify : Bool
  inode : Bool
  details : Bool
  sort_function : sort_fn
  deriving DecidableEq, Repr

/-- The initial values in `main`: every flag `FALSE`, `ialphasort` as the sort
function. -/
def Flags.init : Flags :=
  { all := false, classify := false, inode := false, details := false,
    sort_function := sort_fn.ialphasort }

/-- The `switch (flag)` of `main`; `none` for the `default` case (`97 70 105
108 83 116 88` are `a F i l S t X`). -/
def set_flag (f : Flags) (flag : Nat) : Option Flags :=
  if flag = 97 then some { f with all := true }
  else if flag = 70 then some { f with classify := true }
  else if flag = 105 then some { f with inode := true }
  else if flag = 108 then some { f with details := true }
  else if flag = 83 then some { f with sort_function := sort_fn.sizesort }
  else if flag = 116 then some { f with sort_function := sort_fn.mtimesort }
  else if flag = 88 then some { f with sort_function := sort_fn.extsort }
  else none

/-- Outcome of the flag parsing loop: the flags and the arguments left, or the
character that reached the `default` case. -/
inductive Parsed where
  | ok (flags : Flags) (rest : List Mem)
  | illegal (flag : Nat)
  deriving DecidableEq, Repr

/-- The inner loop `while ((flag = *++argv[0]))` over the memory that follows
the first byte of an argument; the result is the flags, or the character of
the `default` case. -/
def parse_arg : Flags → Mem → Flags ⊕ Nat
  | f, [] => Sum.inl f
  | f, flag :: m =>
    if flag = 0 then Sum.inl f
    else match set_flag f flag with
      | some g => parse_arg g m
      | none => Sum.inr flag

/-- The outer loop `while (--argc > 0 && (*++argv)[0] == '-')` over the
arguments that follow `argv[0]`. -/
def parse_args : Flags → List Mem → Parsed
  | f, [] => Parsed.ok f []
  | f, arg :: rest =>
    if arg.headD 0 = 45 then
      match parse_arg f arg.tail with
      | Sum.inl g => parse_args g rest
      | Sum.inr flag => Parsed.illegal flag
    else Parsed.ok f (arg :: rest)

/-! ## Listing -/

/-- `printspaces(n)` of `utils.c`. -/
def printspaces (n : Int) : List Nat := List.replicate n.toNat 32

/-- `printdetails(stats, link_len, user_len, group_len, size_len)` of `ls.c`:
the text written to standard output. The arrays `permissions` and `time_str`
are taken to hold the strings written to them. The differences are those of
`int`; `user_len - strlen(user)` is computed in `size_t` and converted to the
`int` parameter of `printspaces`. -/
def printdetails (fuel : Nat) (sys : Sys) (stats : Stat)
    (link_len user_len group_len size_len : Int) : Option (List Nat) :=
  match intlen fuel (toInt32 stats.st_nlink), getuser sys stats, getgroup sys stats,
      intlen fuel (toInt32 stats.st_size), timestr stats.st_mtime with
  | some nlink_len, some user, some group, some st_size_len, some time_str =>
    some (cstr (modestr stats.st_mode) ++ [32]
      ++ fmt_i (toInt32 stats.st_nlink) ++ [32]
      ++ printspaces (toInt32 (link_len - nlink_len))
      ++ cstr user ++ [32]
      ++ printspaces (toInt32 (user_len - strlen user))
      ++ cstr group ++ [32]
      ++ printspaces (toInt32 (group_len - strlen group))
      ++ printspaces (toInt32 (size_len - st_size_len))
      ++ fmt_i stats.st_size ++ [32]
      ++ time_str ++ [32])
  | _, _, _, _, _ => none

/-- The five column lengths `main` computes before the loop. -/
structure Widths where
  fileno_len : Int
  link_len : Int
  user_len : Int
  group_len : Int
  size_len : Int
  deriving DecidableEq, Repr

/-- The five calls of `maxlen` in `main`, in their order. -/
def column_lengths (fuel : Nat) (sys : Sys) (dir : Mem) (entries : List Dirent) :
    Option Widths :=
  match maxlen fuel sys dir entries field_t.FILENO, maxlen fuel sys dir entries field_t.LINKS,
      maxlen fuel sys dir entries field_t.USER, maxlen fuel sys dir entries field_t.GROUP,
      maxlen fuel sys dir entries field_t.SIZE with
  | some fileno_len, some link_len, some user_len, some group_len, some size_len =>
    some { fileno_len := fileno_len, link_len := link_len, user_len := user_len,
           group_len := group_len, size_len := size_len }
  | _, _, _, _, _ => none

/-- The test that skips an entry: `!all && entries[i]->d_name[0] == '.'`. -/
def skipped (fl : Flags) (e : Dirent) : Bool := !fl.all && e.d_name.headD 0 == 46

/-- The `if (inode)` block of the loop body. -/
def print_inode (fuel : Nat) (fl : Flags) (w : Widths) (e : Dirent) : Option (List Nat) :=
  if fl.inode then
    if fl.details then
      match intlen fuel (toInt32 e.d_fileno) with
      | some fileno_len =>
        some (fmt_i (toInt32 e.d_fileno) ++ [32]
          ++ printspaces (toInt32 (w.fileno_len - fileno_len)))
      | none => none
    else some (fmt_i (toInt32 e.d_fileno) ++ [32])
  else some []

/-- The text of one entry up to its separator: the inode block, the details,
the name and, with `classify`, the character `getclass` returns, written with
`%c`. -/
def print_entry (fuel : Nat) (sys : Sys) (dir : Mem) (fl : Flags) (w : Widths) (e : Dirent) :
    Option (List Nat) :=
  match print_inode fuel fl w e with
  | none => none
  | some inode_text =>
    match getfilestats sys dir e.d_name with
    | none => none
    | some stats =>
      match (if fl.details then
          printdetails fuel sys stats w.link_len w.user_len w.group_len w.size_len
        else some []) with
      | none => none
      | some details_text =>
        some (inode_text ++ details_text ++ cstr e.d_name
          ++ (if fl.classify then [getclass stats] else []))

/-- The separator after entry `i` of `n`: `if (details && i < n - 1)` a
newline, else two spaces. -/
def separator (fl : Flags) (i n : Int) : List Nat :=
  if fl.details && decide (i < n - 1) then [10] else [32, 32]

/-- The loop `for (i = 0; i < n; i++)` of `main` from index `i` on, over the
entries left; the result is the text written to standard output. -/
def render_loop (fuel : Nat) (sys : Sys) (dir : Mem) (fl : Flags) (w : Widths) (n : Int) :
    Int → List Dirent → Option (List Nat)
  | _, [] => some []
  | i, e :: es =>
    if skipped fl e then render_loop fuel sys dir fl w n (i + 1) es
    else
      match print_entry fuel sys dir fl w e with
      | none => none
      | some text =>
        match render_loop fuel sys dir fl w n (i + 1) es with
        | none => none
        | some out => some (text ++ separator fl i n ++ out)

/-- The loop over all entries followed by the final `printf("\n")`. -/
def render (fuel : Nat) (sys : Sys) (dir : Mem) (fl : Flags) (w : Widths)
    (entries : List Dirent) : Option (List Nat) :=
  match render_loop fuel sys dir fl w entries.length 0 entries with
  | some out => some (out ++ [10])
  | none => none

/-- How a run ends: the exit status and what was written to standard output
and to standard error. -/
structure Exit where
  status : Nat
  stdout : List Nat
  stderr : List Nat
  deriving DecidableEq, Repr

/-- `main(argc, argv)` of `ls.c`. `scandir dir f` is the result of
`scandir(dir, &entries, 0, f)`: the entries in the order the sort with
comparator `f` left them, or `none` for a negative return value. The result is
`none` when a function called from `main` exits or does not return. -/
def main (fuel : Nat) (sys : Sys) (scandir : Mem → sort_fn → Option (List Dirent))
    (argv : List Mem) : Option Exit :=
  match parse_args Flags.init argv.tail with
  | Parsed.illegal flag =>
    some { status := 1, stdout := [], stderr := lit "illegal option " ++ [flag] ++ [10] }
  | Parsed.ok fl rest =>
    let dir := rest.headD (lit ".")
    match scandir dir fl.sort_function with
    | none =>
      some { status := 1, stdout := [],
             stderr := lit "unable to open \x27" ++ cstr dir ++ lit "\x27" ++ [10] }
    | some entries =>
      match column_lengths fuel sys dir entries with
      | none => none
      | some w =>
        match render fuel sys dir fl w entries with
        | none => none
        | some out => some { status := 0, stdout := out, stderr := [] }

/-! ## Reference definitions

What the specification says in its own words, to compare the code with. -/

/-- The flag characters: `a F i l S t X`. -/
def recognised (c : Nat) : Bool := decide (c ∈ [97, 70, 105, 108, 83, 116, 88])

/-- The characters that follow the `-` of the leading dash-arguments, in the
order they stand. -/
def flag_chars : List Mem → List Nat
  | [] => []
  | arg :: rest => if arg.headD 0 = 45 then cstr arg.tail ++ flag_chars rest else []

/-- The arguments from the first one that does not begin with `-`. -/
def rest_args : List Mem → List Mem
  | [] => []
  | arg :: rest => if arg.headD 0 = 45 then rest_args rest else arg :: rest

/-- The comparator named by the last of the characters `S`, `t`, `X` among
`chars`, and `s` when none of the three occurs. -/
def last_sort (s : sort_fn) (chars : List Nat) : sort_fn :=
  match chars.reverse.find? (fun c => c == 83 || c == 116 || c == 88) with
  | some c =>
    if c = 83 then sort_fn.sizesort
    else if c = 116 then sort_fn.mtimesort
    else sort_fn.extsort
  | none => s

/-- The comparator the flag characters select: the one named by the last of
`S`, `t`, `X`, and `ialphasort` when none of the three occurs. -/
def selected_sort (chars : List Nat) : sort_fn := last_sort sort_fn.ialphasort chars

/-- The effect of one flag character on the flags; a character that is not a
flag leaves them as they are. -/
def apply_flag (f : Flags) (c : Nat) : Flags := (set_flag f c).getD f

/-- The text of a listing, given the text `txt e` of each entry up to its
separator: every entry that is not skipped contributes its text and its
separator, which is a newline in detailed mode unless the entry is the last
one of the sequence, and two spaces otherwise. -/
def listing (fl : Flags) (txt : Dirent → List Nat) : List Dirent → List Nat
  | [] => []
  | e :: es =>
    (if skipped fl e then []
      else txt e ++ (if fl.details && !es.isEmpty then [10] else [32, 32]))
      ++ listing fl txt es

/-! ## More fixtures -/

/-- A file of mode `mode`, of the given size and modification time,
owned by uid 0 and gid 0. -/
def fileOfMode (mode : Nat) (size mtime : Int) : Stat :=
  { st_mode := mode, st_nlink := 1, st_uid := 0, st_gid := 0, st_size := size, st_mtime := mtime }

/-- A `scandir` that finds the given entries in `.`, already in order, and
cannot open any other directory. -/
def scandirOf (entries : List Dirent) : Mem → sort_fn → Option (List Dirent) :=
  fun dir _ => if cstr dir = lit "." then some entries else none

/-- A file system in which every path gets the same answers: `st` from the
link-following query and `lst` from the non-following one. -/
def sysWith (st lst : Option Stat) : Sys where
  stat := fun _ => st
  lstat := fun _ => lst
  getpwuid := fun uid => if uid = 0 then some (lit "root") else none
  getgrgid := fun gid => if gid = 0 then some (lit "root") else none

/-- The entries of the scenario directory in name order. -/
def scenarioEntries : List Dirent :=
  [⟨lit ".hidden", 11⟩, ⟨lit "Apple.md", 12⟩, ⟨lit "banana.txt", 13⟩]

/-- The directory `.` with the single file `a` of size 5. -/
def oneFile : Sys := sysOf (lit ".") [(lit "a", plainFile 5 0)]

/-- The flags after `-l`. -/
def flagsDetailed : Flags := { Flags.init with details := true }

/-- The directory `.` with the regular file `notes`, mode `0644`, and the
directory `sub`, mode `0755`. -/
def classDir : Sys :=
  sysOf (lit ".") [(lit "notes", plainFile 0 0), (lit "sub", fileOfMode 0o040755 4096 0)]

/-- The directory `.` with the hidden file `.cache` of size 123456 and the
file `a` of size 5. -/
def hiddenWide : Sys :=
  sysOf (lit ".") [(lit ".cache", plainFile 123456 0), (lit "a", plainFile 5 0)]

/-! ## Lemmas on C strings -/

theorem cstr_nil : cstr [] = [] := rfl

theorem cstr_cons (c : Nat) (m : Mem) :
    cstr (c :: m) = if c = 0 then [] else c :: cstr m := by
  by_cases h : c = 0 <;> simp [cstr, List.takeWhile, h]

theorem cstr_cons_of_ne (c : Nat) (m : Mem) (h : c ≠ 0) : cstr (c :: m) = c :: cstr m := by
  simp [cstr_cons, h]

theorem cstr_zero_cons (m : Mem) : cstr (0 :: m) = [] := by
  simp [cstr_cons]

theorem cstr_not_mem_zero (m : Mem) : 0 ∉ cstr m := by
  induction m with
  | nil => simp [cstr_nil]
  | cons c m ih =>
    rw [cstr_cons]
    by_cases h : c = 0
    · simp [h]
    · simp only [h, if_false, List.mem_cons, not_or]
      exact ⟨fun e => h e.symm, ih⟩

theorem cstr_append_zero (l rest : List Nat) (h : 0 ∉ l) : cstr (l ++ 0 :: rest) = l := by
  induction l with
  | nil => simp [cstr_cons]
  | cons c l ih =>
    simp only [List.mem_cons, not_or] at h
    have hc : c ≠ 0 := fun e => h.1 e.symm
    rw [List.cons_append, cstr_cons_of_ne _ _ hc, ih h.2]

theorem nat_list_nil_lt_cons (d : Nat) (l : List Nat) : ([] : List Nat) < d :: l :=
  List.Lex.nil

theorem nat_list_not_lt_nil (l : List Nat) : ¬ l < ([] : List Nat) := by
  intro h
  cases h

theorem nat_list_cons_lt_cons (c d : Nat) (a b : List Nat) :
    c :: a < d :: b ↔ c < d ∨ (c = d ∧ a < b) := by
  constructor
  · intro h
    cases h with
    | rel h => exact Or.inl h
    | cons h => exact Or.inr ⟨rfl, h⟩
  · rintro (h | ⟨rfl, h⟩)
    · exact List.Lex.rel h
    · exact List.Lex.cons h

/-- Sign of `strcmp`: negative exactly when the first string is
lexicographically below the second. -/
theorem strcmp_neg_iff (x y : Mem) : strcmp x y < 0 ↔ cstr x < cstr y := by
  induction x generalizing y with
  | nil =>
    cases y with
    | nil => simp [strcmp, cstr_nil]
    | cons d b =>
      by_cases hd : d = 0
      · simp [strcmp, cstr_cons, cstr_nil, hd]
      · simp only [strcmp, cstr_cons, cstr_nil, hd, if_false]
        constructor
        · intro _; exact nat_list_nil_lt_cons _ _
        · intro _; omega
  | cons c a ih =>
    cases y with
    | nil =>
      simp only [strcmp, cstr_nil]
      constructor
      · intro h; omega
      · intro h; exact absurd h (nat_list_not_lt_nil _)
    | cons d b =>
      simp only [strcmp, cstr_cons]
      by_cases hcd : c = d
      · subst hcd
        by_cases hc : c = 0
        · simp [hc]
        · simp only [hc, if_false, ne_eq, not_true_eq_false, nat_list_cons_lt_cons, ih b]
          simp
      · by_cases hc : c = 0
        · subst hc
          have hd : d ≠ 0 := fun h => hcd h.symm
          simp only [ne_eq, hcd, not_false_eq_true, if_true, hd, if_false]
          constructor
          · intro _; exact nat_list_nil_lt_cons _ _
          · intro _; omega
        · by_cases hd : d = 0
          · subst hd
            simp only [ne_eq, hcd, not_false_eq_true, if_true, hc, if_false]
            constructor
            · intro h; omega
            · intro h; exact absurd h (nat_list_not_lt_nil _)
          · simp only [ne_eq, hcd, not_false_eq_true, if_true, hc, hd, if_false,
              nat_list_cons_lt_cons]
            constructor
            · intro h; left; omega
            · rintro (h | ⟨h, _⟩)
              · omega
              · exact h.elim

/-- `strcmp` is antisymmetric in its arguments. -/
theorem strcmp_swap (x y : Mem) : strcmp y x = - strcmp x y := by
  induction x generalizing y with
  | nil =>
    cases y with
    | nil => simp [strcmp]
    | cons d b => simp [strcmp]
  | cons c a ih =>
    cases y with
    | nil => simp [strcmp]
    | cons d b =>
      simp only [strcmp]
      by_cases hcd : c = d
      · subst hcd
        by_cases hc : c = 0
        · simp [hc]
        · simp [hc, ih b]
      · have hdc : d ≠ c := fun h => hcd h.symm
        simp [hcd, hdc]

theorem strcmp_pos_iff (x y : Mem) : 0 < strcmp x y ↔ cstr y < cstr x := by
  rw [← strcmp_neg_iff y x, strcmp_swap x y]
  omega

/-- `strcmp` returns zero exactly on equal strings. -/
theorem strcmp_eq_zero_iff (x y : Mem) : strcmp x y = 0 ↔ cstr x = cstr y := by
  induction x generalizing y with
  | nil =>
    cases y with
    | nil => simp [strcmp, cstr_nil]
    | cons d b =>
      by_cases hd : d = 0
      · simp [strcmp, cstr_cons, cstr_nil, hd]
      · simp only [strcmp, cstr_cons, cstr_nil, hd, if_false]
        constructor
        · intro h; omega
        · intro h; cases h
  | cons c a ih =>
    cases y with
    | nil =>
      by_cases hc : c = 0
      · simp [strcmp, cstr_cons, cstr_nil, hc]
      · simp only [strcmp, cstr_cons, cstr_nil, hc, if_false]
        constructor
        · intro h; omega
        · intro h; cases h
    | cons d b =>
      simp only [strcmp, cstr_cons]
      by_cases hcd : c = d
      · subst hcd
        by_cases hc : c = 0
        · simp [hc]
        · simp [hc, ih b]
      · by_cases hc : c = 0
        · subst hc
          have hd : d ≠ 0 := fun h => hcd h.symm
          simp only [ne_eq, hcd, not_false_eq_true, if_true, hd, if_false]
          constructor
          · intro h; omega
          · intro h; cases h
        · by_cases hd : d = 0
          · subst hd
            simp only [ne_eq, hcd, not_false_eq_true, if_true, hc, if_false]
            constructor
            · intro h; omega
            · intro h; cases h
          · simp only [ne_eq, hcd, not_false_eq_true, if_true, hc, hd, if_false]
            constructor
            · intro h; omega
            · intro h; exact absurd (List.cons.inj h).1 hcd

/-- `strrchr` finds nothing when the character does not occur in the string. -/
theorem strrchr_none (m : Mem) (c : Nat) (hc : c ≠ 0) (h : c ∉ cstr m) :
    strrchr m c = none := by
  induction m with
  | nil => simp [strrchr, hc]
  | cons x m ih =>
    by_cases hx : x = 0
    · simp [strrchr, hx, hc]
    · rw [cstr_cons] at h
      simp only [hx, if_false, List.mem_cons, not_or] at h
      have hxc : x ≠ c := fun e => h.1 e.symm
      simp [strrchr, hx, ih h.2, hxc]

/-- `strrchr` returns the last occurrence: when the string is `p ++ c :: e`
with no `c` in `e`, the result points at that `c` and `e` follows it. -/
theorem strrchr_last (m : Mem) (c : Nat) (hc : c ≠ 0) (p e : List Nat)
    (hm : cstr m = p ++ c :: e) (he : c ∉ e) :
    ∃ r, strrchr m c = some (c :: r) ∧ cstr r = e := by
  induction p generalizing m with
  | nil =>
    cases m with
    | nil => simp [cstr_nil] at hm
    | cons x m =>
      rw [cstr_cons] at hm
      by_cases hx : x = 0
      · simp [hx] at hm
      · simp only [hx, if_false, List.nil_append, List.cons.injEq] at hm
        obtain ⟨rfl, hm⟩ := hm
        refine ⟨m, ?_, hm⟩
        have hn : strrchr m x = none := strrchr_none m x hc (by rw [hm]; exact he)
        simp [strrchr, hx, hn]
  | cons a p ih =>
    cases m with
    | nil => simp [cstr_nil] at hm
    | cons x m =>
      rw [cstr_cons] at hm
      by_cases hx : x = 0
      · simp [hx] at hm
      · simp only [hx, if_false, List.cons_append, List.cons.injEq] at hm
        obtain ⟨r, hr, hre⟩ := ih m hm.2
        exact ⟨r, by simp [strrchr, hx, hr], hre⟩

theorem getext_no_dot (name : Mem) (h : 46 ∉ cstr name) : cstr (getext name) = [] := by
  simp [getext, strrchr_none name 46 (by decide) h, cstr_nil]

theorem getext_after_last_dot (name : Mem) (p e : List Nat)
    (hm : cstr name = p ++ 46 :: e) (he : 46 ∉ e) : cstr (getext name) = e := by
  obtain ⟨r, hr, hre⟩ := strrchr_last name 46 (by decide) p e hm he
  simp [getext, hr, hre]

theorem tolower_ne_zero (c : Nat) (h : c ≠ 0) : tolower c ≠ 0 := by
  unfold tolower
  split <;> omega

theorem strtolower_loop_append_zero (l rest : List Nat) (h : 0 ∉ l) :
    strtolower_loop (l ++ 0 :: rest) = l.map tolower ++ 0 :: rest := by
  induction l with
  | nil => simp [strtolower_loop]
  | cons c l ih =>
    simp only [List.mem_cons, not_or] at h
    have hc : c ≠ 0 := fun e => h.1 e.symm
    simp [strtolower_loop, hc, ih h.2]

/-- When the string found at the destination is at least as long as the
source, `strtolower` leaves the lower-case form of the source there. -/
theorem strtolower_of_fits (s t : Mem) (h : strlen s ≤ strlen t) :
    cstr (strtolower s t) = (cstr s).map tolower := by
  have hlen : (cstr s).length ≤ strlen t := h
  obtain ⟨k, hk⟩ : ∃ k, strlen t + 1 - strlen s = k + 1 := ⟨strlen t - strlen s, by omega⟩
  unfold strtolower strncpy
  rw [List.take_of_length_le (by omega), hk, List.replicate_succ, List.append_assoc,
    List.cons_append, strtolower_loop_append_zero _ _ (cstr_not_mem_zero s)]
  apply cstr_append_zero
  intro hmem
  obtain ⟨c, hc, hc0⟩ := List.mem_map.mp hmem
  exact tolower_ne_zero c (fun e => cstr_not_mem_zero s (e ▸ hc)) hc0

/-! ## Machine integers -/

theorem toInt32_of_range (x : Int) (h1 : -2147483648 ≤ x) (h2 : x ≤ 2147483647) :
    toInt32 x = x := by
  unfold toInt32
  omega

/-- The negation of the least `int` wraps to itself. -/
theorem toInt32_neg_int_min : toInt32 (- (-2147483648)) = -2147483648 := by decide

/-! ## Comparators -/

/-- C1 (the code departs from the claim): `sizesort` is not antisymmetric.
For the empty file `a` and the 2 GiB file `b` the size difference `2^31` is
stored in an `int`, where it wraps to `-2^31` in either direction, so both
`sizesort(a, b)` and `sizesort(b, a)` are negative, whatever the allocator
returns. -/
theorem sizesort_negative_both_ways (ma mb : Option Mem) :
    sizesort bigFiles (lit ".") ma mb ⟨lit "a", 1⟩ ⟨lit "b", 2⟩ = some (-2147483648) ∧
    sizesort bigFiles (lit ".") ma mb ⟨lit "b", 2⟩ ⟨lit "a", 1⟩ = some (-2147483648) :=
  ⟨rfl, rfl⟩

/-- C2 (the code departs from the claim): `sizesort` does not order by size
once two sizes differ by `2^31` or more. The empty file `a` and the 4 GiB file
`c` have the `int` difference `0`, so the comparator answers with the name
tie-break although the sizes differ, and puts `a` first; against the 6 GiB
file `e` the difference wraps to `-2^31`, and `a` comes first again. -/
theorem sizesort_wraps_on_large_sizes :
    getfilestats bigFiles (lit ".") (lit "a") = some (plainFile 0 0) ∧
    getfilestats bigFiles (lit ".") (lit "c") = some (plainFile 4294967296 0) ∧
    getfilestats bigFiles (lit ".") (lit "e") = some (plainFile 6442450944 0) ∧
    (∀ ma mb : Option Mem,
      sizesort bigFiles (lit ".") ma mb ⟨lit "a", 1⟩ ⟨lit "c", 3⟩ =
        ialphasort ma mb ⟨lit "a", 1⟩ ⟨lit "c", 3⟩) ∧
    sizesort bigFiles (lit ".") (some [0, 0]) (some [0, 0]) ⟨lit "a", 1⟩ ⟨lit "c", 3⟩ = some (-2) ∧
    (∀ ma mb : Option Mem,
      sizesort bigFiles (lit ".") ma mb ⟨lit "a", 1⟩ ⟨lit "e", 4⟩ = some (-2147483648)) :=
  ⟨rfl, rfl, rfl, fun _ _ => rfl, rfl, fun _ _ => rfl⟩

/-- C3 (the code departs from the claim): `ialphasort` can return `0` for
names whose lower-case forms differ. `strtolower` copies `strlen(t) + 1`
bytes, a length taken from the uninitialised destination; with zero-filled
blocks one byte is copied, so `ab` and `ac` both become `a` and compare equal.
With blocks that hold two non-zero bytes the same call returns `-1`: the
result depends on what the allocator hands out. -/
theorem ialphasort_zero_on_distinct_names :
    ialphasort (some [0, 0, 0]) (some [0, 0, 0]) ⟨lit "ab", 1⟩ ⟨lit "ac", 2⟩ = some 0 ∧
    (cstr (lit "ab")).map tolower ≠ (cstr (lit "ac")).map tolower ∧
    ialphasort (some [1, 1, 0]) (some [1, 1, 0]) ⟨lit "ab", 1⟩ ⟨lit "ac", 2⟩ = some (-1) := by
  refine ⟨rfl, by decide, rfl⟩

/-- C4 (the code departs from the claim): `mtimesort` has no defined result
when the two times are `2^31` seconds or more apart. `difftime` gives
`2147483648.0` for `a` (the Epoch) and `b` (19 January 2038), a value `int`
cannot represent, so the conversion to `int result` is undefined. -/
theorem mtimesort_undefined_on_wide_gap (ma mb : Option Mem) :
    getfilestats timeFiles (lit ".") (lit "a") = some (plainFile 0 0) ∧
    getfilestats timeFiles (lit ".") (lit "b") = some (plainFile 0 2147483648) ∧
    mtimesort timeFiles (lit ".") ma mb ⟨lit "a", 1⟩ ⟨lit "b", 2⟩ = none :=
  ⟨rfl, rfl, rfl⟩

/-- C5: `extsort` orders by extension, ascending, with the name tie-break.
When the extensions differ the result is non-zero and has the sign of their
byte-wise comparison; when they are equal the result is that of `ialphasort`.
The extension is empty for a name without `.` and is what follows the last `.`
otherwise; in particular `a.tar.gz` has `gz`, `README` and `file.` have the
empty extension and `.hidden` has `hidden`. -/
theorem extsort_orders_by_extension (ma mb : Option Mem) (a b : Dirent) :
    (cstr (getext a.d_name) ≠ cstr (getext b.d_name) →
      ∃ r : Int, extsort ma mb a b = some r ∧ r ≠ 0 ∧
        (r < 0 ↔ cstr (getext a.d_name) < cstr (getext b.d_name)) ∧
        (0 < r ↔ cstr (getext b.d_name) < cstr (getext a.d_name))) ∧
    (cstr (getext a.d_name) = cstr (getext b.d_name) →
      extsort ma mb a b = ialphasort ma mb a b) ∧
    (∀ name : Mem, 46 ∉ cstr name → cstr (getext name) = []) ∧
    (∀ (name : Mem) (p e : List Nat), cstr name = p ++ 46 :: e → 46 ∉ e →
      cstr (getext name) = e) ∧
    getext (lit "a.tar.gz") = lit "gz" ∧ getext (lit "README") = lit "" ∧
    getext (lit "file.") = lit "" ∧ getext (lit ".hidden") = lit "hidden" := by
  refine ⟨?_, ?_, getext_no_dot, getext_after_last_dot, rfl, rfl, rfl, rfl⟩
  · intro hne
    have h0 : strcmp (getext a.d_name) (getext b.d_name) ≠ 0 :=
      fun h => hne ((strcmp_eq_zero_iff _ _).mp h)
    refine ⟨strcmp (getext a.d_name) (getext b.d_name), ?_, h0, strcmp_neg_iff _ _,
      strcmp_pos_iff _ _⟩
    simp [extsort, strcoll, h0]
  · intro heq
    have h0 : strcmp (getext a.d_name) (getext b.d_name) = 0 :=
      (strcmp_eq_zero_iff _ _).mpr heq
    simp [extsort, strcoll, h0]

/-- C5 at `notes.c` against `build.h`: the extensions `c` and `h` differ, so
`extsort` is negative without consulting the names; and at `x.c` against
`y.c` it is the result of `ialphasort`. -/
theorem extsort_orders_by_extension_witness :
    (cstr (getext (lit "notes.c")) ≠ cstr (getext (lit "build.h")) ∧
      ∃ r : Int, extsort none none ⟨lit "notes.c", 1⟩ ⟨lit "build.h", 2⟩ = some r ∧ r ≠ 0 ∧
        (r < 0 ↔ cstr (getext (lit "notes.c")) < cstr (getext (lit "build.h"))) ∧
        (0 < r ↔ cstr (getext (lit "build.h")) < cstr (getext (lit "notes.c")))) ∧
    (cstr (getext (lit "x.c")) = cstr (getext (lit "y.c")) ∧
      extsort (some [1, 1, 1, 0]) (some [1, 1, 1, 0]) ⟨lit "x.c", 1⟩ ⟨lit "y.c", 2⟩ =
        ialphasort (some [1, 1, 1, 0]) (some [1, 1, 1, 0]) ⟨lit "x.c", 1⟩ ⟨lit "y.c", 2⟩) :=
  ⟨⟨by decide,
      (extsort_orders_by_extension none none ⟨lit "notes.c", 1⟩ ⟨lit "build.h", 2⟩).1
        (by decide)⟩,
    ⟨by decide,
      (extsort_orders_by_extension (some [1, 1, 1, 0]) (some [1, 1, 1, 0]) ⟨lit "x.c", 1⟩
        ⟨lit "y.c", 2⟩).2.1 (by decide)⟩⟩

/-! ## Comparators within range

What the comparators do when the destination blocks are long enough for
`strtolower` and the differences fit `int`. -/

/-- With destination blocks that are long enough, `ialphasort` has the sign
of the comparison of the lower-case names and is zero exactly when they are
equal. -/
theorem ialphasort_of_fits (ta tb : Mem) (a b : Dirent)
    (ha : strlen a.d_name ≤ strlen ta) (hb : strlen b.d_name ≤ strlen tb) :
    ∃ r : Int, ialphasort (some ta) (some tb) a b = some r ∧
      (r < 0 ↔ (cstr a.d_name).map tolower < (cstr b.d_name).map tolower) ∧
      (r = 0 ↔ (cstr a.d_name).map tolower = (cstr b.d_name).map tolower) ∧
      (0 < r ↔ (cstr b.d_name).map tolower < (cstr a.d_name).map tolower) := by
  refine ⟨strcmp (strtolower a.d_name ta) (strtolower b.d_name tb), rfl, ?_, ?_, ?_⟩
  · rw [strcmp_neg_iff, strtolower_of_fits _ _ ha, strtolower_of_fits _ _ hb]
  · rw [strcmp_eq_zero_iff, strtolower_of_fits _ _ ha, strtolower_of_fits _ _ hb]
  · rw [strcmp_pos_iff, strtolower_of_fits _ _ ha, strtolower_of_fits _ _ hb]

/-- While the two sizes differ by less than `2^31`, `sizesort` is the size of
`b` minus the size of `a` when they differ and the name tie-break when they
are equal. -/
theorem sizesort_of_small (sys : Sys) (dir : Mem) (ma mb : Option Mem) (a b : Dirent)
    (sa sb : Stat) (ha : getfilestats sys dir a.d_name = some sa)
    (hb : getfilestats sys dir b.d_name = some sb)
    (h1 : -2147483648 ≤ sb.st_size - sa.st_size) (h2 : sb.st_size - sa.st_size ≤ 2147483647) :
    sizesort sys dir ma mb a b =
      if sa.st_size = sb.st_size then ialphasort ma mb a b
      else some (sb.st_size - sa.st_size) := by
  have hw : toInt32 (toInt64 (sb.st_size - sa.st_size)) = sb.st_size - sa.st_size := by
    unfold toInt32 toInt64
    omega
  simp only [sizesort, ha, hb, hw]
  by_cases h : sa.st_size = sb.st_size
  · simp [h]
  · have h0 : sb.st_size - sa.st_size ≠ 0 := by omega
    simp [h, h0]

/-- While the two times are less than `2^31` seconds apart, `mtimesort` is
the time of `b` minus the time of `a` when they differ and the name tie-break
when they are equal. -/
theorem mtimesort_of_small (sys : Sys) (dir : Mem) (ma mb : Option Mem) (a b : Dirent)
    (sa sb : Stat) (ha : getfilestats sys dir a.d_name = some sa)
    (hb : getfilestats sys dir b.d_name = some sb)
    (h1 : -2147483648 ≤ sb.st_mtime - sa.st_mtime)
    (h2 : sb.st_mtime - sa.st_mtime ≤ 2147483647) :
    mtimesort sys dir ma mb a b =
      if sa.st_mtime = sb.st_mtime then ialphasort ma mb a b
      else some (sb.st_mtime - sa.st_mtime) := by
  have hd : doubleToInt (difftime sb.st_mtime sa.st_mtime) =
      some (sb.st_mtime - sa.st_mtime) := by
    simp [doubleToInt, difftime, h1, h2]
  simp only [mtimesort, ha, hb, hd]
  by_cases h : sa.st_mtime = sb.st_mtime
  · simp [h]
  · have h0 : sb.st_mtime - sa.st_mtime ≠ 0 := by omega
    simp [h, h0]

/-- The scenario of the specification: by size `Apple.md` (100) comes before
`banana.txt` (10), which comes before `.hidden` (1), whatever the allocator
returns. -/
theorem sizesort_scenario (ma mb : Option Mem) :
    sizesort scenarioDir (lit ".") ma mb ⟨lit "Apple.md", 1⟩ ⟨lit "banana.txt", 2⟩ = some (-90) ∧
    sizesort scenarioDir (lit ".") ma mb ⟨lit "banana.txt", 2⟩ ⟨lit ".hidden", 3⟩ = some (-9) ∧
    sizesort scenarioDir (lit ".") ma mb ⟨lit "Apple.md", 1⟩ ⟨lit ".hidden", 3⟩ = some (-99) :=
  ⟨rfl, rfl, rfl⟩

/-- The scenario of the specification: with destination blocks that hold a
string as long as the name, `Apple.md` comes before `banana.txt`. -/
theorem ialphasort_scenario :
    ialphasort (some (lit "????????")) (some (lit "??????????")) ⟨lit "Apple.md", 1⟩
      ⟨lit "banana.txt", 2⟩ = some (-1) :=
  rfl

/-! ## Classifier and formatter -/

/-- C6: the classification table of `getclass`, with its precedence. A
directory gives `/`; otherwise a symbolic link gives `@`; otherwise a socket
gives `=`; otherwise a FIFO gives `|`; otherwise any execute bit gives `*`;
otherwise the result is the NUL character. A directory never gives `*`,
execute bits or not. -/
theorem getclass_table (stats : Stat) :
    (S_ISDIR stats.st_mode = true → getclass stats = 47) ∧
    (S_ISDIR stats.st_mode = false → S_ISLNK stats.st_mode = true → getclass stats = 64) ∧
    (S_ISDIR stats.st_mode = false → S_ISLNK stats.st_mode = false →
      S_ISSOCK stats.st_mode = true → getclass stats = 61) ∧
    (S_ISDIR stats.st_mode = false → S_ISLNK stats.st_mode = false →
      S_ISSOCK stats.st_mode = false → S_ISFIFO stats.st_mode = true →
      getclass stats = 124) ∧
    (S_ISDIR stats.st_mode = false → S_ISLNK stats.st_mode = false →
      S_ISSOCK stats.st_mode = false → S_ISFIFO stats.st_mode = false →
      (stats.st_mode &&& S_IXUSR ≠ 0 ∨ stats.st_mode &&& S_IXGRP ≠ 0 ∨
        stats.st_mode &&& S_IXOTH ≠ 0) → getclass stats = 42) ∧
    (S_ISDIR stats.st_mode = false → S_ISLNK stats.st_mode = false →
      S_ISSOCK stats.st_mode = false → S_ISFIFO stats.st_mode = false →
      stats.st_mode &&& S_IXUSR = 0 → stats.st_mode &&& S_IXGRP = 0 →
      stats.st_mode &&& S_IXOTH = 0 → getclass stats = 0) ∧
    (S_ISDIR stats.st_mode = true → getclass stats ≠ 42) := by
  refine ⟨?_, ?_, ?_, ?_, ?_, ?_, ?_⟩
  · intro h; simp [getclass, h]
  · intro h1 h2; simp [getclass, h1, h2]
  · intro h1 h2 h3; simp [getclass, h1, h2, h3]
  · intro h1 h2 h3 h4; simp [getclass, h1, h2, h3, h4]
  · intro h1 h2 h3 h4 h5
    simp only [getclass, h1, h2, h3, h4]
    rw [if_pos h5]
    simp
  · intro h1 h2 h3 h4 h5 h6 h7; simp [getclass, h1, h2, h3, h4, h5, h6, h7]
  · intro h; simp [getclass, h]

/-- C6 at concrete modes: a directory `0755` gives `/` though its execute
bits are set, a symbolic link gives `@`, a socket `=`, a FIFO `|`, an
executable regular file `*` and a plain regular file NUL. -/
theorem getclass_table_witness :
    getclass { plainFile 0 0 with st_mode := 0o040755 } = 47 ∧
    getclass { plainFile 0 0 with st_mode := 0o120777 } = 64 ∧
    getclass { plainFile 0 0 with st_mode := 0o140755 } = 61 ∧
    getclass { plainFile 0 0 with st_mode := 0o010644 } = 124 ∧
    getclass { plainFile 0 0 with st_mode := 0o100755 } = 42 ∧
    getclass { plainFile 0 0 with st_mode := 0o100644 } = 0 ∧
    getclass { plainFile 0 0 with st_mode := 0o040755 } ≠ 42 :=
  ⟨(getclass_table { plainFile 0 0 with st_mode := 0o040755 }).1 (by decide),
   (getclass_table { plainFile 0 0 with st_mode := 0o120777 }).2.1 (by decide) (by decide),
   (getclass_table { plainFile 0 0 with st_mode := 0o140755 }).2.2.1 (by decide) (by decide)
     (by decide),
   (getclass_table { plainFile 0 0 with st_mode := 0o010644 }).2.2.2.1 (by decide) (by decide)
     (by decide) (by decide),
   (getclass_table { plainFile 0 0 with st_mode := 0o100755 }).2.2.2.2.1 (by decide) (by decide)
     (by decide) (by decide) (by decide),
   (getclass_table { plainFile 0 0 with st_mode := 0o100644 }).2.2.2.2.2.1 (by decide)
     (by decide) (by decide) (by decide) (by decide) (by decide) (by decide),
   (getclass_table { plainFile 0 0 with st_mode := 0o040755 }).2.2.2.2.2.2 (by decide)⟩

/-- Testing a permission bit with `&`: the mask `2 ^ i` selects bit `i`. -/
theorem and_two_pow_ne_zero (m i : Nat) : 2 ^ i &&& m ≠ 0 ↔ m.testBit i = true := by
  rw [Nat.land_comm, Nat.and_two_pow]
  cases m.testBit i <;> simp

/-- The string `modestr` writes: the ten characters before the NUL. -/
theorem cstr_modestr (mode : Nat) : cstr (modestr mode) = (modestr mode).take 10 := by
  unfold modestr
  rw [cstr_cons_of_ne _ _ (by split_ifs <;> decide), cstr_cons_of_ne _ _ (by split_ifs <;> decide),
    cstr_cons_of_ne _ _ (by split_ifs <;> decide), cstr_cons_of_ne _ _ (by split_ifs <;> decide),
    cstr_cons_of_ne _ _ (by split_ifs <;> decide), cstr_cons_of_ne _ _ (by split_ifs <;> decide),
    cstr_cons_of_ne _ _ (by split_ifs <;> decide), cstr_cons_of_ne _ _ (by split_ifs <;> decide),
    cstr_cons_of_ne _ _ (by split_ifs <;> decide), cstr_cons_of_ne _ _ (by split_ifs <;> decide),
    cstr_zero_cons]
  rfl

/-- C7: the string `modestr` produces has exactly ten characters. Character 0
is the type letter: `b` for a block device, `c` for a character device, `d`
for a directory, `l` for a symbolic link, `p` for a FIFO, `s` for a socket and
`-` otherwise. Characters 1..9 stand for the permission bits 8 down to 0, that
is user, group, other, each in the order read, write, execute: the letter
`r`, `w` or `x` when the bit is set and `-` when it is clear. -/
theorem modestr_form (mode : Nat) :
    (cstr (modestr mode)).length = 10 ∧
    (S_ISBLK mode = true → (cstr (modestr mode))[0]? = some 98) ∧
    (S_ISCHR mode = true → (cstr (modestr mode))[0]? = some 99) ∧
    (S_ISDIR mode = true → (cstr (modestr mode))[0]? = some 100) ∧
    (S_ISLNK mode = true → (cstr (modestr mode))[0]? = some 108) ∧
    (S_ISFIFO mode = true → (cstr (modestr mode))[0]? = some 112) ∧
    (S_ISSOCK mode = true → (cstr (modestr mode))[0]? = some 115) ∧
    (S_ISBLK mode = false → S_ISCHR mode = false → S_ISDIR mode = false →
      S_ISLNK mode = false → S_ISFIFO mode = false → S_ISSOCK mode = false →
      (cstr (modestr mode))[0]? = some 45) ∧
    (∀ k : Nat, k < 9 →
      (cstr (modestr mode))[k + 1]? =
        some (if mode.testBit (8 - k) = true then [114, 119, 120].getD (k % 3) 0 else 45)) := by
  rw [cstr_modestr]
  refine ⟨rfl, ?_, ?_, ?_, ?_, ?_, ?_, ?_, ?_⟩
  · intro h; simp [modestr, h]
  · intro h
    have hb : S_ISBLK mode = false := by
      simp only [S_ISCHR, S_ISBLK, beq_iff_eq, beq_eq_false_iff_ne] at h ⊢
      rw [h]; decide
    simp [modestr, h, hb]
  · intro h
    have hb : S_ISBLK mode = false := by
      simp only [S_ISDIR, S_ISBLK, beq_iff_eq, beq_eq_false_iff_ne] at h ⊢
      rw [h]; decide
    have hc : S_ISCHR mode = false := by
      simp only [S_ISDIR, S_ISCHR, beq_iff_eq, beq_eq_false_iff_ne] at h ⊢
      rw [h]; decide
    simp [modestr, h, hb, hc]
  · intro h
    have hb : S_ISBLK mode = false := by
      simp only [S_ISLNK, S_ISBLK, beq_iff_eq, beq_eq_false_iff_ne] at h ⊢
      rw [h]; decide
    have hc : S_ISCHR mode = false := by
      simp only [S_ISLNK, S_ISCHR, beq_iff_eq, beq_eq_false_iff_ne] at h ⊢
      rw [h]; decide
    have hd : S_ISDIR mode = false := by
      simp only [S_ISLNK, S_ISDIR, beq_iff_eq, beq_eq_false_iff_ne] at h ⊢
      rw [h]; decide
    simp [modestr, h, hb, hc, hd]
  · intro h
    have hb : S_ISBLK mode = false := by
      simp only [S_ISFIFO, S_ISBLK, beq_iff_eq, beq_eq_false_iff_ne] at h ⊢
      rw [h]; decide
    have hc : S_ISCHR mode = false := by
      simp only [S_ISFIFO, S_ISCHR, beq_iff_eq, beq_eq_false_iff_ne] at h ⊢
      rw [h]; decide
    have hd : S_ISDIR mode = false := by
      simp only [S_ISFIFO, S_ISDIR, beq_iff_eq, beq_eq_false_iff_ne] at h ⊢
      rw [h]; decide
    have hl : S_ISLNK mode = false := by
      simp only [S_ISFIFO, S_ISLNK, beq_iff_eq, beq_eq_false_iff_ne] at h ⊢
      rw [h]; decide
    simp [modestr, h, hb, hc, hd, hl]
  · intro h
    have hb : S_ISBLK mode = false := by
      simp only [S_ISSOCK, S_ISBLK, beq_iff_eq, beq_eq_false_iff_ne] at h ⊢
      rw [h]; decide
    have hc : S_ISCHR mode = false := by
      simp only [S_ISSOCK, S_ISCHR, beq_iff_eq, beq_eq_false_iff_ne] at h ⊢
      rw [h]; decide
    have hd : S_ISDIR mode = false := by
      simp only [S_ISSOCK, S_ISDIR, beq_iff_eq, beq_eq_false_iff_ne] at h ⊢
      rw [h]; decide
    have hl : S_ISLNK mode = false := by
      simp only [S_ISSOCK, S_ISLNK, beq_iff_eq, beq_eq_false_iff_ne] at h ⊢
      rw [h]; decide
    have hp : S_ISFIFO mode = false := by
      simp only [S_ISSOCK, S_ISFIFO, beq_iff_eq, beq_eq_false_iff_ne] at h ⊢
      rw [h]; decide
    simp [modestr, h, hb, hc, hd, hl, hp]
  · intro hb hc hd hl hp hs; simp [modestr, hb, hc, hd, hl, hp, hs]
  · intro k hk
    have h8 := and_two_pow_ne_zero mode 8
    have h7 := and_two_pow_ne_zero mode 7
    have h6 := and_two_pow_ne_zero mode 6
    have h5 := and_two_pow_ne_zero mode 5
    have h4 := and_two_pow_ne_zero mode 4
    have h3 := and_two_pow_ne_zero mode 3
    have h2 := and_two_pow_ne_zero mode 2
    have h1 := and_two_pow_ne_zero mode 1
    have h0 := and_two_pow_ne_zero mode 0
    norm_num at h8 h7 h6 h5 h4 h3 h2 h1 h0
    interval_cases k <;>
      simp [modestr, S_IRUSR, S_IWUSR, S_IXUSR, S_IRGRP, S_IWGRP, S_IXGRP, S_IROTH, S_IWOTH,
        S_IXOTH, h8, h7, h6, h5, h4, h3, h2, h1, h0]

/-- C7 at concrete modes: the directory `0755` reads `drwxr-xr-x`, whose
first permission character is `r`, and the regular file `0644` starts with
`-`. -/
theorem modestr_form_witness :
    (cstr (modestr 0o040755))[0]? = some 100 ∧
    (cstr (modestr 0o100644))[0]? = some 45 ∧
    (cstr (modestr 0o040755))[0 + 1]? =
      some (if (0o040755 : Nat).testBit (8 - 0) = true then [114, 119, 120].getD (0 % 3) 0 else 45) ∧
    cstr (modestr 0o040755) = lit "drwxr-xr-x" :=
  ⟨(modestr_form 0o040755).2.2.2.1 (by decide),
   (modestr_form 0o100644).2.2.2.2.2.2.2.1 (by decide) (by decide) (by decide) (by decide)
     (by decide) (by decide),
   (modestr_form 0o040755).2.2.2.2.2.2.2.2 0 (by decide),
   by decide⟩

/-! ## Calendar -/

theorem doyOfEra_range (doe : Int) : 0 ≤ doyOfEra doe ∧ doyOfEra doe ≤ 365 := by
  unfold doyOfEra
  simp only
  omega

/-- The fields of a broken-down time are within the ranges of `struct tm`. -/
theorem breakDown_ranges (time : Int) :
    0 ≤ (breakDown time).tm_min ∧ (breakDown time).tm_min ≤ 59 ∧
    0 ≤ (breakDown time).tm_hour ∧ (breakDown time).tm_hour ≤ 23 ∧
    1 ≤ (breakDown time).tm_mday ∧ (breakDown time).tm_mday ≤ 31 ∧
    0 ≤ (breakDown time).tm_mon ∧ (breakDown time).tm_mon ≤ 11 := by
  have hd := doyOfEra_range ((time / 86400 + 719468) % 146097)
  simp only [breakDown]
  generalize doyOfEra ((time / 86400 + 719468) % 146097) = doy at hd
  refine ⟨by omega, by omega, by omega, by omega, by omega, by omega, ?_, ?_⟩
  · split <;> omega
  · split <;> omega

/-- Within a 400-year cycle, the day is recovered from the year and the day
of the year: `365` days a year, one more every fourth year, but not every
hundredth. -/
theorem doe_of_yoe_doy (doe : Int) (h0 : 0 ≤ doe) (h1 : doe ≤ 146096) :
    doe = 365 * yoeOfEra doe + yoeOfEra doe / 4 - yoeOfEra doe / 100 + doyOfEra doe := by
  unfold yoeOfEra doyOfEra
  simp only
  have hc0 : 0 ≤ min (doe / 36524) 3 := by omega
  have hc3 : min (doe / 36524) 3 ≤ 3 := by omega
  have hdc0 : 0 ≤ doe - min (doe / 36524) 3 * 36524 := by omega
  have hdc1 : doe - min (doe / 36524) 3 * 36524 ≤ 36524 := by omega
  generalize min (doe / 36524) 3 = c at hc0 hc3 hdc0 hdc1
  generalize hdc : doe - c * 36524 = dc at hdc0 hdc1
  have hq0 : 0 ≤ dc / 1461 := by omega
  have hq1 : dc / 1461 ≤ 24 := by omega
  have hsplit : dc = 1461 * (dc / 1461) + dc % 1461 := by omega
  have hr0 : 0 ≤ dc % 1461 := by omega
  have hr1 : dc % 1461 ≤ 1460 := by omega
  generalize dc / 1461 = q at hq0 hq1 hsplit
  generalize dc % 1461 = dq at hsplit hr0 hr1
  have hy0 : 0 ≤ min (dq / 365) 3 := by omega
  have hy3 : min (dq / 365) 3 ≤ 3 := by omega
  generalize min (dq / 365) 3 = y4 at hy0 hy3
  have e4 : (c * 100 + q * 4 + y4) / 4 = 25 * c + q := by omega
  have e100 : (c * 100 + q * 4 + y4) / 100 = c := by omega
  rw [e4, e100]
  omega

/-- The day count is recovered from the broken-down date by the usual
formula: the broken-down time is the calendar date of `time`. With `y` the
year and `m` the month, both counted from March, the days before the date are
`365 y + y / 4 - y / 100 + y / 400`, the days `(153 m + 2) / 5` of the months
before `m` and the days of the month. -/
theorem breakDown_date (time : Int) :
    let t := breakDown time
    let m := if t.tm_mon ≤ 1 then t.tm_mon + 10 else t.tm_mon - 2
    let y := if t.tm_mon ≤ 1 then t.tm_year + 1900 - 1 else t.tm_year + 1900
    time / 86400 + 719468 =
      365 * y + y / 4 - y / 100 + y / 400 + (153 * m + 2) / 5 + (t.tm_mday - 1) ∧
    time % 86400 / 60 = t.tm_hour * 60 + t.tm_min := by
  have hd := doyOfEra_range ((time / 86400 + 719468) % 146097)
  have he := doe_of_yoe_doy ((time / 86400 + 719468) % 146097) (by omega) (by omega)
  have hyoe0 : 0 ≤ yoeOfEra ((time / 86400 + 719468) % 146097) := by
    unfold yoeOfEra; simp only; omega
  have hyoe1 : yoeOfEra ((time / 86400 + 719468) % 146097) ≤ 399 := by
    unfold yoeOfEra; simp only; omega
  simp only [breakDown]
  generalize doyOfEra ((time / 86400 + 719468) % 146097) = doy at hd he
  generalize yoeOfEra ((time / 86400 + 719468) % 146097) = yoe at he hyoe0 hyoe1
  have hz : time / 86400 + 719468 =
      146097 * ((time / 86400 + 719468) / 146097) + (time / 86400 + 719468) % 146097 := by
    omega
  generalize (time / 86400 + 719468) / 146097 = era at hz
  generalize (time / 86400 + 719468) % 146097 = doe at hz he
  generalize time / 86400 + 719468 = z at hz
  constructor
  · have hmp0 : 0 ≤ (5 * doy + 2) / 153 := by omega
    have hmp1 : (5 * doy + 2) / 153 ≤ 11 := by omega
    by_cases hmp : (5 * doy + 2) / 153 < 10
    · simp only [hmp, if_true]
      have h1 : ¬ ((5 * doy + 2) / 153 + 2 ≤ 1) := by omega
      simp only [h1, if_false]
      have ey : yoe + era * 400 + 0 - 1900 + 1900 = yoe + 400 * era := by omega
      have em : (5 * doy + 2) / 153 + 2 - 2 = (5 * doy + 2) / 153 := by omega
      rw [ey, em]
      have e4 : (yoe + 400 * era) / 4 = yoe / 4 + 100 * era := by omega
      have e100 : (yoe + 400 * era) / 100 = yoe / 100 + 4 * era := by omega
      have e400 : (yoe + 400 * era) / 400 = era := by omega
      rw [e4, e100, e400]
      omega
    · simp only [hmp, if_false]
      have h1 : (5 * doy + 2) / 153 - 10 ≤ 1 := by omega
      simp only [h1, if_true]
      have ey : yoe + era * 400 + 1 - 1900 + 1900 - 1 = yoe + 400 * era := by omega
      have em : (5 * doy + 2) / 153 - 10 + 10 = (5 * doy + 2) / 153 := by omega
      rw [ey, em]
      have e4 : (yoe + 400 * era) / 4 = yoe / 4 + 100 * era := by omega
      have e100 : (yoe + 400 * era) / 100 = yoe / 100 + 4 * era := by omega
      have e400 : (yoe + 400 * era) / 400 = era := by omega
      rw [e4, e100, e400]
      omega
  · omega

/-- Timestamps from 1 January 1000 to 31 December 9999 have a four-digit UTC
year. -/
theorem year_four_digits (time : Int) (h1 : -30610224000 ≤ time) (h2 : time < 253402300800) :
    1000 ≤ 1900 + (breakDown time).tm_year ∧ 1900 + (breakDown time).tm_year ≤ 9999 := by
  obtain ⟨_, _, _, _, hd0, hd1, hm0, hm1⟩ := breakDown_ranges time
  have hdate := (breakDown_date time).1
  simp only at hdate
  generalize (breakDown time).tm_year = ty at hdate ⊢
  generalize (breakDown time).tm_mon = tmon at hdate hm0 hm1
  generalize (breakDown time).tm_mday = td at hdate hd0 hd1
  have hz1 : 365183 ≤ time / 86400 + 719468 := by omega
  have hz2 : time / 86400 + 719468 ≤ 3652364 := by omega
  generalize time / 86400 + 719468 = z at hdate hz1 hz2
  by_cases hmon : tmon ≤ 1
  · simp only [hmon, if_true] at hdate
    have e1 : (ty + 1900 - 1) / 4 ≤ 25 * ((ty + 1900 - 1) / 100) + 24 := by omega
    have e2 : 4 * ((ty + 1900 - 1) / 400) ≤ (ty + 1900 - 1) / 100 := by omega
    constructor <;> omega
  · simp only [hmon, if_false] at hdate
    have e1 : (ty + 1900) / 4 ≤ 25 * ((ty + 1900) / 100) + 24 := by omega
    have e2 : 4 * ((ty + 1900) / 400) ≤ (ty + 1900) / 100 := by omega
    constructor <;> omega

/-! ## printf conversions -/

theorem natDecAux_fuel (f g n : Nat) (hf : n < f) (hg : n < g) :
    natDecAux f n = natDecAux g n := by
  induction f generalizing g n with
  | zero => omega
  | succ f ih =>
    cases g with
    | zero => omega
    | succ g =>
      simp only [natDecAux]
      by_cases h : n < 10
      · simp [h]
      · simp only [h, if_false]
        rw [ih g (n / 10) (by omega) (by omega)]

/-- The recursion the decimal rendering obeys. -/
theorem natDec_eq (n : Nat) :
    natDec n = if n < 10 then [48 + n] else natDec (n / 10) ++ [48 + n % 10] := by
  show natDecAux (n + 1) n = _
  rw [natDecAux]
  by_cases h : n < 10
  · simp [h]
  · simp only [h, if_false]
    rw [natDecAux_fuel n (n / 10 + 1) (n / 10) (by omega) (by omega)]
    rfl

theorem natDec_length (n : Nat) : (natDec n).length = Nat.log 10 n + 1 := by
  induction n using Nat.strong_induction_on with
  | _ n ih =>
    rw [natDec_eq]
    by_cases h : n < 10
    · simp [h, Nat.log_of_lt h]
    · simp only [h, if_false, List.length_append, List.length_singleton]
      rw [ih (n / 10) (by omega), @Nat.log_of_one_lt_of_le 10 n (by decide) (by omega)]

theorem natDec_one (n : Nat) (h : n < 10) : natDec n = [48 + n] := by
  rw [natDec_eq, if_pos h]

theorem natDec_two (n : Nat) (h1 : 10 ≤ n) (h2 : n < 100) :
    natDec n = [48 + n / 10, 48 + n % 10] := by
  rw [natDec_eq, if_neg (by omega), natDec_one (n / 10) (by omega)]
  rfl

theorem natDec_four (n : Nat) (h1 : 1000 ≤ n) (h2 : n < 10000) :
    natDec n = [48 + n / 1000, 48 + n / 100 % 10, 48 + n / 10 % 10, 48 + n % 10] := by
  rw [natDec_eq, if_neg (by omega), natDec_eq, if_neg (by omega),
    natDec_two (n / 10 / 10) (by omega) (by omega)]
  have e1 : n / 10 / 10 / 10 = n / 1000 := by omega
  have e2 : n / 10 / 10 % 10 = n / 100 % 10 := by omega
  simp [e1, e2]

/-- `%02i` of a value in `0..99`: two digits, zero-padded. -/
theorem fmt_02i_two (n : Nat) (h : n < 100) :
    fmt_02i (n : Int) = [48 + n / 10, 48 + n % 10] := by
  have hn : ¬ ((n : Int) < 0) := by omega
  simp only [fmt_02i, hn, if_false, Int.natAbs_ofNat]
  by_cases h10 : n < 10
  · rw [natDec_one n h10]
    have e1 : n / 10 = 0 := by omega
    have e2 : n % 10 = n := by omega
    simp [e1, e2]
  · rw [natDec_two n (by omega) h]
    simp

/-- `%i` of a value in `1000..9999`: four digits. -/
theorem fmt_i_four (n : Nat) (h1 : 1000 ≤ n) (h2 : n < 10000) :
    fmt_i (n : Int) = [48 + n / 1000, 48 + n / 100 % 10, 48 + n / 10 % 10, 48 + n % 10] := by
  have hn : ¬ ((n : Int) < 0) := by omega
  simp only [fmt_i, hn, if_false, Int.natAbs_ofNat]
  exact natDec_four n h1 h2

/-! ## Time strings -/

/-- C8 (fails as stated): the year is printed with `%i`, unpadded and
unbounded. The first second of the year 10000 renders as
`10000-01-01 00:00`, 17 characters, and the last minute of the year 999 as
`999-12-31 23:59`, 15 characters. -/
theorem timestr_year_not_four_digits :
    timestr 253402300800 = some (lit "10000-01-01 00:00") ∧
    (lit "10000-01-01 00:00").length = 17 ∧
    timestr (-30610224001) = some (lit "999-12-31 23:59") ∧
    (lit "999-12-31 23:59").length = 15 := by
  decide

/-- When the UTC year has four digits, `timestr` produces the sixteen
characters `YYYY-MM-DD hh:mm` of the broken-down time. -/
theorem timestr_of_four_digit_year (time : Int)
    (hy1 : 1000 ≤ 1900 + (breakDown time).tm_year)
    (hy2 : 1900 + (breakDown time).tm_year ≤ 9999) :
    ∃ y mo d h mi : Nat,
      (y : Int) = 1900 + (breakDown time).tm_year ∧
      (mo : Int) = 1 + (breakDown time).tm_mon ∧
      (d : Int) = (breakDown time).tm_mday ∧
      (h : Int) = (breakDown time).tm_hour ∧
      (mi : Int) = (breakDown time).tm_min ∧
      1000 ≤ y ∧ y ≤ 9999 ∧ 1 ≤ mo ∧ mo ≤ 12 ∧ 1 ≤ d ∧ d ≤ 31 ∧ h ≤ 23 ∧ mi ≤ 59 ∧
      timestr time = some
        [48 + y / 1000, 48 + y / 100 % 10, 48 + y / 10 % 10, 48 + y % 10, 45,
         48 + mo / 10, 48 + mo % 10, 45, 48 + d / 10, 48 + d % 10, 32,
         48 + h / 10, 48 + h % 10, 58, 48 + mi / 10, 48 + mi % 10] ∧
      ∀ s : Mem, timestr time = some s → s.length = 16 := by
  obtain ⟨hmi0, hmi1, hh0, hh1, hd0, hd1, hm0, hm1⟩ := breakDown_ranges time
  have hg : gmtime time = some (breakDown time) := by
    unfold gmtime
    simp only
    rw [if_pos ⟨by omega, by omega⟩]
  obtain ⟨y, hy⟩ := Int.eq_ofNat_of_zero_le (show 0 ≤ 1900 + (breakDown time).tm_year by omega)
  obtain ⟨mo, hmo⟩ := Int.eq_ofNat_of_zero_le (show 0 ≤ 1 + (breakDown time).tm_mon by omega)
  obtain ⟨d, hd⟩ := Int.eq_ofNat_of_zero_le (show 0 ≤ (breakDown time).tm_mday by omega)
  obtain ⟨h, hh⟩ := Int.eq_ofNat_of_zero_le hh0
  obtain ⟨mi, hmi⟩ := Int.eq_ofNat_of_zero_le hmi0
  have hstr : timestr time = some
      [48 + y / 1000, 48 + y / 100 % 10, 48 + y / 10 % 10, 48 + y % 10, 45,
       48 + mo / 10, 48 + mo % 10, 45, 48 + d / 10, 48 + d % 10, 32,
       48 + h / 10, 48 + h % 10, 58, 48 + mi / 10, 48 + mi % 10] := by
    unfold timestr
    rw [hg]
    simp only
    rw [toInt32_of_range _ (by omega) (by omega), toInt32_of_range _ (by omega) (by omega),
      hy, hmo, hd, hh, hmi, fmt_i_four y (by omega) (by omega), fmt_02i_two mo (by omega),
      fmt_02i_two d (by omega), fmt_02i_two h (by omega), fmt_02i_two mi (by omega)]
    rfl
  refine ⟨y, mo, d, h, mi, hy.symm, hmo.symm, hd.symm, hh.symm, hmi.symm, by omega, by omega,
    by omega, by omega, by omega, by omega, by omega, by omega, hstr, ?_⟩
  intro s hs
  rw [hstr] at hs
  cases hs
  rfl

/-- C8 (amended): for every timestamp of the years 1000 to 9999, that is from
`-30610224000` (1 January 1000, 00:00:00 UTC) to `253402300799` (31 December
9999, 23:59:59 UTC), `timestr` produces the sixteen characters
`YYYY-MM-DD hh:mm` of the UTC broken-down time: four digits of the year, `-`,
two digits of the month in `01..12`, `-`, two digits of the day in `01..31`, a
space, two digits of the hour in `00..23`, `:` and two digits of the minute in
`00..59`. -/
theorem timestr_form (time : Int) (h1 : -30610224000 ≤ time) (h2 : time ≤ 253402300799) :
    ∃ y mo d h mi : Nat,
      (y : Int) = 1900 + (breakDown time).tm_year ∧
      (mo : Int) = 1 + (breakDown time).tm_mon ∧
      (d : Int) = (breakDown time).tm_mday ∧
      (h : Int) = (breakDown time).tm_hour ∧
      (mi : Int) = (breakDown time).tm_min ∧
      1000 ≤ y ∧ y ≤ 9999 ∧ 1 ≤ mo ∧ mo ≤ 12 ∧ 1 ≤ d ∧ d ≤ 31 ∧ h ≤ 23 ∧ mi ≤ 59 ∧
      timestr time = some
        [48 + y / 1000, 48 + y / 100 % 10, 48 + y / 10 % 10, 48 + y % 10, 45,
         48 + mo / 10, 48 + mo % 10, 45, 48 + d / 10, 48 + d % 10, 32,
         48 + h / 10, 48 + h % 10, 58, 48 + mi / 10, 48 + mi % 10] ∧
      ∀ s : Mem, timestr time = some s → s.length = 16 :=
  timestr_of_four_digit_year time (year_four_digits time h1 (by omega)).1
    (year_four_digits time h1 (by omega)).2

/-- C8 (amended) at the timestamp `1700000000`, 14 November 2023 22:13 UTC:
the string is `2023-11-14 22:13`. -/
theorem timestr_form_witness :
    (-30610224000 ≤ (1700000000 : Int) ∧ (1700000000 : Int) ≤ 253402300799) ∧
    (∃ y mo d h mi : Nat,
      (y : Int) = 1900 + (breakDown 1700000000).tm_year ∧
      (mo : Int) = 1 + (breakDown 1700000000).tm_mon ∧
      (d : Int) = (breakDown 1700000000).tm_mday ∧
      (h : Int) = (breakDown 1700000000).tm_hour ∧
      (mi : Int) = (breakDown 1700000000).tm_min ∧
      1000 ≤ y ∧ y ≤ 9999 ∧ 1 ≤ mo ∧ mo ≤ 12 ∧ 1 ≤ d ∧ d ≤ 31 ∧ h ≤ 23 ∧ mi ≤ 59 ∧
      timestr 1700000000 = some
        [48 + y / 1000, 48 + y / 100 % 10, 48 + y / 10 % 10, 48 + y % 10, 45,
         48 + mo / 10, 48 + mo % 10, 45, 48 + d / 10, 48 + d % 10, 32,
         48 + h / 10, 48 + h % 10, 58, 48 + mi / 10, 48 + mi % 10] ∧
      ∀ s : Mem, timestr 1700000000 = some s → s.length = 16) ∧
    timestr 1700000000 = some (lit "2023-11-14 22:13") :=
  ⟨⟨by decide, by decide⟩, timestr_form 1700000000 (by decide) (by decide), by decide⟩

/-! ## Column widths -/

theorem floorLog10Aux_eq_log (f n : Nat) (h : n ≤ f) : floorLog10Aux f n = Nat.log 10 n := by
  induction f generalizing n with
  | zero =>
    have h0 : n = 0 := by omega
    subst h0
    simp [floorLog10Aux]
  | succ f ih =>
    rw [floorLog10Aux]
    by_cases h10 : n < 10
    · simp [h10, Nat.log_of_lt h10]
    · simp only [h10, if_false]
      rw [ih (n / 10) (by omega), @Nat.log_of_one_lt_of_le 10 n (by decide) (by omega)]

/-- The digit count used by `intlen` is the integer logarithm. -/
theorem floorLog10_eq_log (n : Nat) : floorLog10 n = Nat.log 10 n :=
  floorLog10Aux_eq_log n n (Nat.le_refl n)

/-- On the least `int` the recursion of `intlen` never reaches a non-negative
argument: no recursion depth is enough. -/
theorem intlen_int_min (fuel : Nat) : intlen fuel (-2147483648) = none := by
  induction fuel with
  | zero => rfl
  | succ fuel ih =>
    rw [intlen, if_pos (by decide), toInt32_neg_int_min, ih]

/-- For a positive `int`, `intlen` returns the number of characters `%i`
prints. -/
theorem intlen_pos (fuel : Nat) (v : Int) (h0 : 0 < v) :
    intlen (fuel + 1) v = some ((fmt_i v).length : Int) := by
  obtain ⟨n, rfl⟩ := Int.eq_ofNat_of_zero_le (le_of_lt h0)
  have hn : ¬ ((n : Int) < 0) := by omega
  have hz : ¬ ((n : Int) = 0) := by omega
  rw [intlen, if_neg hn, if_neg hz]
  simp only [fmt_i, hn, if_false, Int.natAbs_ofNat, Int.toNat_ofNat, natDec_length,
    floorLog10_eq_log]
  rfl

/-- The integer logarithm of a value below `2^31` is at most nine. -/
theorem log10_le_nine (n : Nat) (h : n < 2147483648) : Nat.log 10 n ≤ 9 := by
  by_cases h0 : n = 0
  · subst h0
    simp
  · have hlt : Nat.log 10 n < 10 :=
      Nat.log_lt_of_lt_pow h0 (lt_of_lt_of_le h (by norm_num))
    omega

/-- For every `int` but the least one, a recursion depth of two is enough and
`intlen` returns the number of characters `%i` prints: `1` for zero, the
digits of a positive value, the digits and the sign of a negative one. -/
theorem intlen_eq_fmt_length (fuel : Nat) (v : Int) (h1 : -2147483648 < v)
    (h2 : v ≤ 2147483647) : intlen (fuel + 2) v = some ((fmt_i v).length : Int) := by
  rcases lt_trichotomy v 0 with hneg | hzero | hpos
  · obtain ⟨n, hn⟩ := Int.eq_ofNat_of_zero_le (show 0 ≤ -v by omega)
    have hw : toInt32 (-v) = -v := toInt32_of_range _ (by omega) (by omega)
    rw [intlen, if_pos hneg, hw, intlen_pos fuel (-v) (by omega)]
    have hpn : ¬ (-v < 0) := by omega
    have hlen : (fmt_i v).length = (fmt_i (-v)).length + 1 := by
      simp [fmt_i, hneg, hpn]
    have hle : (fmt_i (-v)).length ≤ 10 := by
      simp only [fmt_i, hpn, if_false, natDec_length]
      have := log10_le_nine (-v).natAbs (by omega)
      omega
    simp only [hlen]
    rw [toInt32_of_range _ (by omega) (by omega)]
    simp only [Nat.cast_add, Nat.cast_one, Option.some.injEq]
    omega
  · subst hzero
    rfl
  · exact intlen_pos (fuel + 1) v hpos

/-- C9 (the code departs from the claim): on the least `int`, `-2^31`, the
negation in `intlen(-i)` wraps to `-2^31` again, so the recursion never ends
and `intlen` returns nothing, where `%i` prints the eleven characters
`-2147483648`. The four values of the specification are as claimed. -/
theorem intlen_diverges_on_int_min :
    (∀ fuel : Nat, intlen fuel (-2147483648) = none) ∧
    fmt_i (-2147483648) = lit "-2147483648" ∧
    intlen 2 0 = some 1 ∧ intlen 2 9 = some 1 ∧ intlen 2 10 = some 2 ∧
    intlen 2 (-5) = some 2 :=
  ⟨intlen_int_min, by decide, by decide, by decide, by decide, by decide⟩

/-- An empty sequence has width zero in every column. -/
theorem maxlen_nil (fuel : Nat) (sys : Sys) (dir : Mem) (f : field_t) :
    maxlen fuel sys dir [] f = some 0 :=
  rfl

/-- C10 (the code departs from the claim): the width of the size column is
computed from the size converted to `int`, while the size is printed with
`%ld`. For a directory holding one file of 4 GiB the width is `1`, and the
size printed has ten characters; for one holding a file of 2 GiB `maxlen`
never returns, since the `int` it hands to `intlen` is the least one. -/
theorem maxlen_size_narrower_than_printed (fuel : Nat) :
    getfilestats bigFiles (lit ".") (lit "c") = some (plainFile 4294967296 0) ∧
    maxlen (fuel + 1) bigFiles (lit ".") [⟨lit "c", 3⟩] field_t.SIZE = some 1 ∧
    fmt_i (plainFile 4294967296 0).st_size = lit "4294967296" ∧
    (lit "4294967296").length = 10 ∧
    getfilestats bigFiles (lit ".") (lit "b") = some (plainFile 2147483648 0) ∧
    maxlen fuel bigFiles (lit ".") [⟨lit "b", 2⟩] field_t.SIZE = none := by
  refine ⟨rfl, rfl, by decide, rfl, rfl, ?_⟩
  have hs : getfilestats bigFiles (lit ".") (lit "b") = some (plainFile 2147483648 0) := rfl
  have hi : toInt32 (plainFile 2147483648 0).st_size = -2147483648 := by decide
  simp only [maxlen, maxlen_loop, hs, fieldlen, hi, intlen_int_min]

/-! ## Metadata -/

/-- C12 (fails as stated): `getstats` has no fallback. For a broken symbolic
link the link-following query fails and the non-following one succeeds, and
`getstats` exits; for a symbolic link to a regular file both succeed, and the
record returned is the non-following one, that of the link. -/
theorem getstats_no_fallback :
    getstats (sysWith none (some (fileOfMode 0o120777 4 0))) (lit "./link") = none ∧
    getstats (sysWith (some (fileOfMode 0o100644 512 0)) (some (fileOfMode 0o120777 4 0)))
      (lit "./link") = some (fileOfMode 0o120777 4 0) ∧
    fileOfMode 0o120777 4 0 ≠ fileOfMode 0o100644 512 0 := by
  refine ⟨rfl, rfl, by decide⟩

/-- `getstats` exits exactly when one of the two queries fails. -/
theorem getstats_eq_none_iff (sys : Sys) (path : Mem) :
    getstats sys path = none ↔ sys.stat path = none ∨ sys.lstat path = none := by
  unfold getstats
  cases hs : sys.stat path with
  | none => simp
  | some s => simp

/-- C12 (amended): for every path, when both queries succeed `getstats`
returns the record of the non-following query, so that a symbolic link is
reported as the link itself; and whenever the non-following query fails
`getstats` fails, with exit status 1. -/
theorem getstats_nonfollowing_record (sys : Sys) (path : Mem) :
    (∀ s l : Stat, sys.stat path = some s → sys.lstat path = some l →
      getstats sys path = some l) ∧
    (sys.lstat path = none → getstats sys path = none) := by
  constructor
  · intro s l hs hl
    simp [getstats, hs, hl]
  · intro hl
    exact (getstats_eq_none_iff sys path).mpr (Or.inr hl)

/-- C12 (amended) at a symbolic link to a regular file, and at a path for
which both queries fail. -/
theorem getstats_nonfollowing_record_witness :
    getstats (sysWith (some (fileOfMode 0o100644 512 0)) (some (fileOfMode 0o120777 4 0)))
      (lit "./link") = some (fileOfMode 0o120777 4 0) ∧
    getstats (sysWith none none) (lit "./gone") = none :=
  ⟨(getstats_nonfollowing_record
      (sysWith (some (fileOfMode 0o100644 512 0)) (some (fileOfMode 0o120777 4 0)))
      (lit "./link")).1 _ _ rfl rfl,
   (getstats_nonfollowing_record (sysWith none none) (lit "./gone")).2 rfl⟩

/-! ## Command line -/

theorem set_flag_eq_none (f : Flags) (c : Nat) : set_flag f c = none ↔ recognised c = false := by
  unfold set_flag recognised
  by_cases h1 : c = 97
  · simp [h1]
  by_cases h2 : c = 70
  · simp [h2]
  by_cases h3 : c = 105
  · simp [h3]
  by_cases h4 : c = 108
  · simp [h4]
  by_cases h5 : c = 83
  · simp [h5]
  by_cases h6 : c = 116
  · simp [h6]
  by_cases h7 : c = 88
  · simp [h7]
  simp [h1, h2, h3, h4, h5, h6, h7]

theorem set_flag_some (f g : Flags) (c : Nat) (h : set_flag f c = some g) :
    recognised c = true ∧ apply_flag f c = g := by
  constructor
  · by_contra hr
    have := (set_flag_eq_none f c).mpr (by simpa using hr)
    simp [this] at h
  · simp [apply_flag, h]

/-- The inner loop stops at the first character that is not a flag, and
otherwise applies the characters of the argument in order. -/
theorem parse_arg_spec (f : Flags) (m : Mem) :
    parse_arg f m =
      match (cstr m).find? (fun c => !recognised c) with
      | some c => Sum.inr c
      | none => Sum.inl ((cstr m).foldl apply_flag f) := by
  induction m generalizing f with
  | nil => simp [parse_arg, cstr_nil]
  | cons flag m ih =>
    by_cases h0 : flag = 0
    · simp [parse_arg, h0, cstr_cons]
    · rw [parse_arg, if_neg h0, cstr_cons_of_ne _ _ h0]
      cases hs : set_flag f flag with
      | none =>
        have hr := (set_flag_eq_none f flag).mp hs
        simp [hr]
      | some g =>
        obtain ⟨hr, hg⟩ := set_flag_some f g flag hs
        simp only [ih g, List.find?_cons, hr, Bool.not_true, List.foldl_cons, hg]

/-- The outer loop stops at the first character of the leading
dash-arguments that is not a flag, and otherwise applies them all. -/
theorem parse_args_spec (f : Flags) (args : List Mem) :
    parse_args f args =
      match (flag_chars args).find? (fun c => !recognised c) with
      | some c => Parsed.illegal c
      | none => Parsed.ok ((flag_chars args).foldl apply_flag f) (rest_args args) := by
  induction args generalizing f with
  | nil => simp [parse_args, flag_chars, rest_args]
  | cons arg rest ih =>
    by_cases hd : arg.headD 0 = 45
    · rw [parse_args, if_pos hd, parse_arg_spec]
      simp only [flag_chars, rest_args, hd, if_true, List.find?_append, List.foldl_append]
      cases hf : (cstr arg.tail).find? (fun c => !recognised c) with
      | some c => simp
      | none => simp [ih]
    · simp only [parse_args, flag_chars, rest_args, hd, if_false]
      rfl

theorem apply_flag_sort_function (f : Flags) (c : Nat) :
    (apply_flag f c).sort_function =
      if c = 83 then sort_fn.sizesort
      else if c = 116 then sort_fn.mtimesort
      else if c = 88 then sort_fn.extsort
      else f.sort_function := by
  unfold apply_flag set_flag
  by_cases h1 : c = 97
  · simp [h1]
  by_cases h2 : c = 70
  · simp [h2]
  by_cases h3 : c = 105
  · simp [h3]
  by_cases h4 : c = 108
  · simp [h4]
  by_cases h5 : c = 83
  · simp [h5]
  by_cases h6 : c = 116
  · simp [h6]
  by_cases h7 : c = 88
  · simp [h7]
  simp [h1, h2, h3, h4, h5, h6, h7]

/-- Applying flag characters in order leaves the comparator named by the last
of `S`, `t`, `X`. -/
theorem foldl_apply_flag_sort_function (f : Flags) (chars : List Nat) :
    (chars.foldl apply_flag f).sort_function = last_sort f.sort_function chars := by
  induction chars using List.reverseRecOn with
  | nil => simp [last_sort]
  | append_singleton l c ih =>
    rw [List.foldl_append, List.foldl_cons, List.foldl_nil, apply_flag_sort_function, ih]
    unfold last_sort
    rw [List.reverse_append, List.reverse_singleton, List.singleton_append, List.find?_cons]
    by_cases h5 : c = 83
    · simp [h5]
    by_cases h6 : c = 116
    · simp [h6]
    by_cases h7 : c = 88
    · simp [h7]
    have hb : (c == 83 || c == 116 || c == 88) = false := by simp [h5, h6, h7]
    simp only [h5, h6, h7, if_false, hb]

theorem find_unrecognised_eq_none (chars : List Nat) (h : ∀ c ∈ chars, recognised c = true) :
    chars.find? (fun c => !recognised c) = none := by
  rw [List.find?_eq_none]
  intro c hc
  simp [h c hc]

/-- C16: when the leading dash-arguments hold flag characters only, parsing
succeeds and the comparator it selects is the one named by the last of the
characters `S`, `t`, `X` among them, `ialphasort` when none occurs. The
characters `a`, `F`, `i`, `l` leave the comparator as it is. The comparator
selected is the one `main` hands to `scandir`: two `scandir` results that
agree for that comparator give the same run. -/
theorem sort_flag_selection (args : List Mem)
    (h : ∀ c ∈ flag_chars args, recognised c = true) :
    (∃ fl : Flags, parse_args Flags.init args = Parsed.ok fl (rest_args args) ∧
      fl.sort_function = selected_sort (flag_chars args)) ∧
    (∀ (f g : Flags) (c : Nat), c ∈ [97, 70, 105, 108] → set_flag f c = some g →
      g.sort_function = f.sort_function) ∧
    (∀ (fuel : Nat) (sys : Sys) (sc sc' : Mem → sort_fn → Option (List Dirent)) (argv0 : Mem),
      (∀ d : Mem, sc d (selected_sort (flag_chars args)) =
        sc' d (selected_sort (flag_chars args))) →
      main fuel sys sc (argv0 :: args) = main fuel sys sc' (argv0 :: args)) := by
  have hp : parse_args Flags.init args =
      Parsed.ok ((flag_chars args).foldl apply_flag Flags.init) (rest_args args) := by
    rw [parse_args_spec, find_unrecognised_eq_none _ h]
  have hs : ((flag_chars args).foldl apply_flag Flags.init).sort_function =
      selected_sort (flag_chars args) := by
    rw [foldl_apply_flag_sort_function]
    rfl
  refine ⟨⟨_, hp, hs⟩, ?_, ?_⟩
  · intro f g c hc hg
    have := apply_flag_sort_function f c
    rw [(set_flag_some f g c hg).2] at this
    rw [this]
    simp only [List.mem_cons, List.mem_singleton, List.not_mem_nil, or_false] at hc
    rcases hc with rfl | rfl | rfl | rfl <;> simp
  · intro fuel sys sc sc' argv0 hsc
    simp only [main, List.tail_cons, hp, hs, hsc]

/-- C16 at `-St -aX -l dir -S`: the last of `S`, `t`, `X` before `dir` is `X`. -/
theorem sort_flag_selection_witness :
    (∀ c ∈ flag_chars [lit "-St", lit "-aX", lit "-l", lit "dir", lit "-S"],
      recognised c = true) ∧
    (∃ fl : Flags,
      parse_args Flags.init [lit "-St", lit "-aX", lit "-l", lit "dir", lit "-S"] =
        Parsed.ok fl (rest_args [lit "-St", lit "-aX", lit "-l", lit "dir", lit "-S"]) ∧
      fl.sort_function =
        selected_sort (flag_chars [lit "-St", lit "-aX", lit "-l", lit "dir", lit "-S"])) ∧
    selected_sort (flag_chars [lit "-St", lit "-aX", lit "-l", lit "dir", lit "-S"]) =
      sort_fn.extsort ∧
    rest_args [lit "-St", lit "-aX", lit "-l", lit "dir", lit "-S"] = [lit "dir", lit "-S"] :=
  ⟨by decide,
   (sort_flag_selection [lit "-St", lit "-aX", lit "-l", lit "dir", lit "-S"] (by decide)).1,
   by decide, by decide⟩

/-- C17: flag parsing aborts exactly when some character after the `-` of
the leading dash-arguments is not one of `a F i l S t X`. The run then ends
with exit status 1, nothing on standard output and the line
`illegal option c` on standard error, `c` being the first such character in
parse order. When every character is a flag, parsing succeeds and leaves the
arguments from the first that does not begin with `-`. -/
theorem illegal_option_rejection (args : List Mem) :
    (∀ c : Nat, parse_args Flags.init args = Parsed.illegal c ↔
      (flag_chars args).find? (fun c => !recognised c) = some c) ∧
    (∀ (c : Nat) (fuel : Nat) (sys : Sys) (sc : Mem → sort_fn → Option (List Dirent))
      (argv0 : Mem), (flag_chars args).find? (fun c => !recognised c) = some c →
      main fuel sys sc (argv0 :: args) =
        some { status := 1, stdout := [], stderr := lit "illegal option " ++ [c] ++ [10] }) ∧
    ((∃ fl : Flags, parse_args Flags.init args = Parsed.ok fl (rest_args args)) ↔
      ∀ c ∈ flag_chars args, recognised c = true) := by
  refine ⟨?_, ?_, ?_⟩
  · intro c
    rw [parse_args_spec]
    cases hf : (flag_chars args).find? (fun c => !recognised c) with
    | some d => simp
    | none => simp
  · intro c fuel sys sc argv0 hf
    have hp : parse_args Flags.init args = Parsed.illegal c := by
      rw [parse_args_spec, hf]
    simp only [main, List.tail_cons, hp]
  · rw [parse_args_spec]
    cases hf : (flag_chars args).find? (fun c => !recognised c) with
    | some d =>
      have hd := List.find?_some hf
      have hm := List.mem_of_find?_eq_some hf
      simp only [false_iff, not_forall, exists_false, reduceCtorEq]
      exact ⟨d, hm, by simpa using hd⟩
    | none =>
      simp only [Parsed.ok.injEq, and_true, exists_eq', true_iff]
      intro c hc
      have := List.find?_eq_none.mp hf c hc
      simpa using this

/-- C17 at `-z`: the run ends with status 1 and `illegal option z`; and at
`-lz -q` the first character that is not a flag is `z`. -/
theorem illegal_option_rejection_witness :
    main 2 scenarioDir (scandirOf []) [lit "ls", lit "-z"] =
      some { status := 1, stdout := [], stderr := lit "illegal option z\n" } ∧
    parse_args Flags.init [lit "-lz", lit "-q"] = Parsed.illegal 122 :=
  ⟨(illegal_option_rejection [lit "-z"]).2.1 122 2 scenarioDir (scandirOf []) (lit "ls")
      (by decide),
   ((illegal_option_rejection [lit "-lz", lit "-q"]).1 122).mpr (by decide)⟩

/-! ## Listing -/

theorem separator_eq (fl : Flags) (i n : Int) (es : List Dirent)
    (hn : n = i + ((es.length : Int) + 1)) :
    separator fl i n = if fl.details && !es.isEmpty then [10] else [32, 32] := by
  unfold separator
  cases es with
  | nil =>
    have h : ¬ (i < n - 1) := by
      simp only [List.length_nil, Nat.cast_zero] at hn
      omega
    simp [h]
  | cons e es =>
    have h : i < n - 1 := by
      simp only [List.length_cons, Nat.cast_add, Nat.cast_one] at hn
      omega
    simp [h]

/-- The loop writes the listing of the entries left, when the text of every
entry it prints is available. -/
theorem render_loop_eq (fuel : Nat) (sys : Sys) (dir : Mem) (fl : Flags) (w : Widths)
    (txt : Dirent → List Nat) (n i : Int) (es : List Dirent) (hn : n = i + (es.length : Int))
    (h : ∀ e ∈ es, skipped fl e = false → print_entry fuel sys dir fl w e = some (txt e)) :
    render_loop fuel sys dir fl w n i es = some (listing fl txt es) := by
  induction es generalizing i with
  | nil => simp [render_loop, listing]
  | cons e es ih =>
    have hn1 : n = (i + 1) + (es.length : Int) := by
      simp only [List.length_cons, Nat.cast_add, Nat.cast_one] at hn
      omega
    have hn2 : n = i + ((es.length : Int) + 1) := by omega
    have ih' := ih (i + 1) hn1 (fun e' he' => h e' (List.mem_cons_of_mem _ he'))
    by_cases hs : skipped fl e = true
    · simp [render_loop, listing, hs, ih']
    · have hs' : skipped fl e = false := by simpa using hs
      have ht := h e (List.mem_cons_self _ _) hs'
      have hsep := separator_eq fl i n es hn2
      simp only [render_loop, listing, hs', ht, ih', hsep]
      simp

theorem render_eq (fuel : Nat) (sys : Sys) (dir : Mem) (fl : Flags) (w : Widths)
    (txt : Dirent → List Nat) (es : List Dirent)
    (h : ∀ e ∈ es, skipped fl e = false → print_entry fuel sys dir fl w e = some (txt e)) :
    render fuel sys dir fl w es = some (listing fl txt es ++ [10]) := by
  have := render_loop_eq fuel sys dir fl w txt es.length 0 es (by omega) h
  simp [render, this]

theorem listing_compact (fl : Flags) (txt : Dirent → List Nat) (es : List Dirent)
    (hd : fl.details = false) :
    listing fl txt es =
      (es.filter (fun e => !skipped fl e)).flatMap (fun e => txt e ++ [32, 32]) := by
  induction es with
  | nil => simp [listing]
  | cons e es ih =>
    by_cases hs : skipped fl e = true
    · simp [listing, hs, ih]
    · have hs' : skipped fl e = false := by simpa using hs
      simp [listing, hs', hd, ih]

theorem listing_detailed (fl : Flags) (txt : Dirent → List Nat) (pre : List Dirent)
    (l : Dirent) (hd : fl.details = true) :
    listing fl txt (pre ++ [l]) =
      (pre.filter (fun e => !skipped fl e)).flatMap (fun e => txt e ++ [10])
        ++ (if skipped fl l then [] else txt l ++ [32, 32]) := by
  induction pre with
  | nil => simp [listing, hd]
  | cons e pre ih =>
    by_cases hs : skipped fl e = true
    · simp [listing, hs, ih]
    · have hs' : skipped fl e = false := by simpa using hs
      simp [listing, hs', hd, ih]

/-- C13: with detailed mode, inode display and classification disabled, the
text written by the loop and the final `printf` is, for the entries that are
not skipped and in their order, the name followed by two spaces, and then one
newline. An entry is skipped exactly when `-a` is absent and its name begins
with `.`; the entries printed are a subsequence of the sorted sequence. The
metadata of every entry printed is taken to resolve. -/
theorem compact_listing (fuel : Nat) (sys : Sys) (dir : Mem) (fl : Flags) (w : Widths)
    (entries : List Dirent) (hd : fl.details = false) (hi : fl.inode = false)
    (hc : fl.classify = false)
    (hs : ∀ e ∈ entries, skipped fl e = false →
      (getfilestats sys dir e.d_name).isSome = true) :
    render fuel sys dir fl w entries =
      some ((entries.filter (fun e => !skipped fl e)).flatMap
        (fun e => cstr e.d_name ++ [32, 32]) ++ [10]) ∧
    (∀ e : Dirent, skipped fl e = true ↔ fl.all = false ∧ e.d_name.headD 0 = 46) ∧
    List.Sublist (entries.filter (fun e => !skipped fl e)) entries := by
  refine ⟨?_, ?_, List.filter_sublist _⟩
  · rw [render_eq fuel sys dir fl w (fun e => cstr e.d_name) entries, listing_compact _ _ _ hd]
    intro e he hsk
    obtain ⟨stats, hst⟩ := Option.isSome_iff_exists.mp (hs e he hsk)
    simp [print_entry, print_inode, hi, hd, hc, hst]
  · intro e
    simp [skipped]

/-- C13 at the scenario: `.hidden`, `Apple.md`, `banana.txt` with default
flags render as `Apple.md  banana.txt  ` and a newline, by the loop and by
the whole run. -/
theorem compact_listing_witness :
    (render 2 scenarioDir (lit ".") Flags.init ⟨2, 1, 4, 4, 3⟩ scenarioEntries =
      some ((scenarioEntries.filter (fun e => !skipped Flags.init e)).flatMap
        (fun e => cstr e.d_name ++ [32, 32]) ++ [10]) ∧
    (∀ e : Dirent, skipped Flags.init e = true ↔
      Flags.init.all = false ∧ e.d_name.headD 0 = 46) ∧
    List.Sublist (scenarioEntries.filter (fun e => !skipped Flags.init e)) scenarioEntries) ∧
    main 2 scenarioDir (scandirOf scenarioEntries) [lit "ls"] =
      some { status := 0, stdout := lit "Apple.md  banana.txt  \n", stderr := [] } :=
  ⟨compact_listing 2 scenarioDir (lit ".") Flags.init ⟨2, 1, 4, 4, 3⟩ scenarioEntries rfl rfl rfl
      (by decide),
   by decide⟩

/-- C14 (fails as stated): in detailed mode the last entry of the sequence
is followed by two spaces, not by a newline. The directory with the single
file `a` lists, with `-l`, as one row that ends in `a`, two spaces and the
final newline. -/
theorem detailed_last_entry_two_spaces :
    main 2 oneFile (scandirOf [⟨lit "a", 7⟩]) [lit "ls", lit "-l"] =
      some { status := 0,
             stdout := lit "-rw-r--r-- 1 root root 5 1970-01-01 00:00 a  \n",
             stderr := [] } := by
  decide

/-- C14 (amended): in detailed mode every printed entry other than the last
entry of the sequence is followed by exactly one newline; the last entry of
the sequence, when it is printed, is followed by the two-space separator; the
output then ends with the single final newline. The text `txt e` of every
entry printed is taken to be available. -/
theorem detailed_listing (fuel : Nat) (sys : Sys) (dir : Mem) (fl : Flags) (w : Widths)
    (txt : Dirent → List Nat) (pre : List Dirent) (l : Dirent) (hd : fl.details = true)
    (h : ∀ e ∈ pre ++ [l], skipped fl e = false →
      print_entry fuel sys dir fl w e = some (txt e)) :
    render fuel sys dir fl w (pre ++ [l]) =
      some ((pre.filter (fun e => !skipped fl e)).flatMap (fun e => txt e ++ [10])
        ++ (if skipped fl l then [] else txt l ++ [32, 32]) ++ [10]) := by
  rw [render_eq fuel sys dir fl w txt (pre ++ [l]) h, listing_detailed _ _ _ _ hd]

/-- C14 (amended) at the scenario with `-l`: `.hidden` is skipped,
`Apple.md` is followed by a newline and `banana.txt`, the last entry, by two
spaces. -/
theorem detailed_listing_witness :
    (∀ e ∈ [(⟨lit ".hidden", 11⟩ : Dirent), ⟨lit "Apple.md", 12⟩] ++ [⟨lit "banana.txt", 13⟩],
      skipped flagsDetailed e = false →
      print_entry 2 scenarioDir (lit ".") flagsDetailed ⟨2, 1, 4, 4, 3⟩ e =
        some ((print_entry 2 scenarioDir (lit ".") flagsDetailed ⟨2, 1, 4, 4, 3⟩ e).getD [])) ∧
    render 2 scenarioDir (lit ".") flagsDetailed ⟨2, 1, 4, 4, 3⟩
        ([⟨lit ".hidden", 11⟩, ⟨lit "Apple.md", 12⟩] ++ [⟨lit "banana.txt", 13⟩]) =
      some (([(⟨lit ".hidden", 11⟩ : Dirent), ⟨lit "Apple.md", 12⟩].filter
          (fun e => !skipped flagsDetailed e)).flatMap
            (fun e => (print_entry 2 scenarioDir (lit ".") flagsDetailed ⟨2, 1, 4, 4, 3⟩ e).getD []
              ++ [10])
        ++ (if skipped flagsDetailed ⟨lit "banana.txt", 13⟩ then []
            else (print_entry 2 scenarioDir (lit ".") flagsDetailed ⟨2, 1, 4, 4, 3⟩
              ⟨lit "banana.txt", 13⟩).getD [] ++ [32, 32])
        ++ [10]) :=
  ⟨by decide,
   detailed_listing 2 scenarioDir (lit ".") flagsDetailed ⟨2, 1, 4, 4, 3⟩
     (fun e => (print_entry 2 scenarioDir (lit ".") flagsDetailed ⟨2, 1, 4, 4, 3⟩ e).getD [])
     [⟨lit ".hidden", 11⟩, ⟨lit "Apple.md", 12⟩] ⟨lit "banana.txt", 13⟩ rfl (by decide)⟩

/-- C15 (the code departs from the claim): with `-F` the character that
`getclass` returns is always written with `%c`. For the regular file `notes`
without execute bits that character is NUL, so a NUL byte stands between the
name and the two spaces. The directory `sub` renders as `sub/`. -/
theorem classify_writes_nul :
    getfilestats classDir (lit ".") (lit "notes") = some (plainFile 0 0) ∧
    getclass (plainFile 0 0) = 0 ∧
    print_entry 2 classDir (lit ".") { Flags.init with classify := true } ⟨1, 1, 4, 4, 4⟩
      ⟨lit "notes", 1⟩ = some (lit "notes" ++ [0]) ∧
    print_entry 2 classDir (lit ".") { Flags.init with classify := true } ⟨1, 1, 4, 4, 4⟩
      ⟨lit "sub", 2⟩ = some (lit "sub/") ∧
    main 2 classDir (scandirOf [⟨lit "notes", 1⟩, ⟨lit "sub", 2⟩]) [lit "ls", lit "-F"] =
      some { status := 0, stdout := lit "notes" ++ [0] ++ lit "  sub/  \n", stderr := [] } := by
  decide

theorem maxlen_loop_ge (fuel : Nat) (sys : Sys) (dir : Mem) (f : field_t) (es : List Dirent)
    (m w : Int) (h : maxlen_loop fuel sys dir f es m = some w) : m ≤ w := by
  induction es generalizing m with
  | nil =>
    simp only [maxlen_loop, Option.some.injEq] at h
    omega
  | cons e es ih =>
    rw [maxlen_loop] at h
    cases hs : getfilestats sys dir e.d_name with
    | none => simp [hs] at h
    | some stats =>
      cases hl : fieldlen fuel sys e stats f with
      | none => simp [hs, hl] at h
      | some len =>
        simp only [hs, hl] at h
        have := ih _ h
        split at this <;> omega

/-- A column length that `maxlen` returns is at least the length `maxlen`
computes for each entry, so no padding amount is negative. -/
theorem fieldlen_le_maxlen (fuel : Nat) (sys : Sys) (dir : Mem) (f : field_t)
    (es : List Dirent) (m w : Int) (h : maxlen_loop fuel sys dir f es m = some w)
    (e : Dirent) (he : e ∈ es) :
    ∃ (stats : Stat) (len : Int), getfilestats sys dir e.d_name = some stats ∧
      fieldlen fuel sys e stats f = some len ∧ len ≤ w := by
  induction es generalizing m with
  | nil => cases he
  | cons x es ih =>
    rw [maxlen_loop] at h
    cases hs : getfilestats sys dir x.d_name with
    | none => simp [hs] at h
    | some stats =>
      cases hl : fieldlen fuel sys x stats f with
      | none => simp [hs, hl] at h
      | some len =>
        simp only [hs, hl] at h
        rcases List.mem_cons.mp he with rfl | hmem
        · refine ⟨stats, len, hs, hl, ?_⟩
          have := maxlen_loop_ge fuel sys dir f es _ w h
          split at this <;> omega
        · exact ih _ h hmem

/-- C19 (the code departs from the claim): the size column does not align
once a size does not fit `int`. The padding is computed from the size
converted to `int`, the size is printed with `%ld`: beside the empty file `a`
the 4 GiB file `c` gets the column length 1 and no padding, its size takes ten
characters, and its name starts nine columns further right. -/
theorem detailed_rows_misaligned :
    column_lengths 2 bigFiles (lit ".") [⟨lit "a", 1⟩, ⟨lit "c", 3⟩] =
      some ⟨1, 1, 4, 4, 1⟩ ∧
    print_entry 2 bigFiles (lit ".") flagsDetailed ⟨1, 1, 4, 4, 1⟩ ⟨lit "a", 1⟩ =
      some (lit "-rw-r--r-- 1 root root 0 1970-01-01 00:00 a") ∧
    print_entry 2 bigFiles (lit ".") flagsDetailed ⟨1, 1, 4, 4, 1⟩ ⟨lit "c", 3⟩ =
      some (lit "-rw-r--r-- 1 root root 4294967296 1970-01-01 00:00 c") ∧
    main 2 bigFiles (scandirOf [⟨lit "a", 1⟩, ⟨lit "c", 3⟩]) [lit "ls", lit "-l"] =
      some { status := 0,
             stdout := lit "-rw-r--r-- 1 root root 0 1970-01-01 00:00 a\n"
               ++ lit "-rw-r--r-- 1 root root 4294967296 1970-01-01 00:00 c  \n",
             stderr := [] } := by
  decide

/-- C11 (fails as stated): the column lengths are computed over all entries,
the hidden ones included. Without `-a`, in a directory with the hidden file
`.cache` of size 123456 and the file `a` of size 5, the size column has the
length 6 of the hidden size, where `maxlen` over the entries printed gives 1;
the only row printed pads the size `5` with five spaces. -/
theorem column_lengths_count_hidden :
    column_lengths 2 hiddenWide (lit ".") [⟨lit ".cache", 1⟩, ⟨lit "a", 2⟩] =
      some ⟨1, 1, 4, 4, 6⟩ ∧
    ([(⟨lit ".cache", 1⟩ : Dirent), ⟨lit "a", 2⟩].filter (fun e => !skipped flagsDetailed e)) =
      [⟨lit "a", 2⟩] ∧
    maxlen 2 hiddenWide (lit ".") [⟨lit "a", 2⟩] field_t.SIZE = some 1 ∧
    main 2 hiddenWide (scandirOf [⟨lit ".cache", 1⟩, ⟨lit "a", 2⟩]) [lit "ls", lit "-l"] =
      some { status := 0,
             stdout := lit "-rw-r--r-- 1 root root      5 1970-01-01 00:00 a  \n",
             stderr := [] } := by
  decide

/-- C11 (amended): each of the five column lengths `main` passes to the loop
is `maxlen` applied to the whole sequence `scandir` returned, hidden entries
included, whether or not `-a` is given. -/
theorem column_lengths_over_all_entries (fuel : Nat) (sys : Sys)
    (sc : Mem → sort_fn → Option (List Dirent)) (argv : List Mem) (fl : Flags)
    (rest : List Mem) (entries : List Dirent) (w : Widths)
    (hp : parse_args Flags.init argv.tail = Parsed.ok fl rest)
    (hsc : sc (rest.headD (lit ".")) fl.sort_function = some entries)
    (h1 : maxlen fuel sys (rest.headD (lit ".")) entries field_t.FILENO = some w.fileno_len)
    (h2 : maxlen fuel sys (rest.headD (lit ".")) entries field_t.LINKS = some w.link_len)
    (h3 : maxlen fuel sys (rest.headD (lit ".")) entries field_t.USER = some w.user_len)
    (h4 : maxlen fuel sys (rest.headD (lit ".")) entries field_t.GROUP = some w.group_len)
    (h5 : maxlen fuel sys (rest.headD (lit ".")) entries field_t.SIZE = some w.size_len) :
    column_lengths fuel sys (rest.headD (lit ".")) entries = some w ∧
    main fuel sys sc argv =
      match render fuel sys (rest.headD (lit ".")) fl w entries with
      | some out => some { status := 0, stdout := out, stderr := [] }
      | none => none := by
  have hw : column_lengths fuel sys (rest.headD (lit ".")) entries = some w := by
    simp only [column_lengths, h1, h2, h3, h4, h5]
  refine ⟨hw, ?_⟩
  simp only [main, hp, hsc, hw]
  cases render fuel sys (rest.headD (lit ".")) fl w entries <;> rfl

/-- C11 (amended) at the directory with `.cache` and `a`, listed with `-l`. -/
theorem column_lengths_over_all_entries_witness :
    column_lengths 2 hiddenWide (([] : List Mem).headD (lit "."))
        [⟨lit ".cache", 1⟩, ⟨lit "a", 2⟩] = some ⟨1, 1, 4, 4, 6⟩ ∧
    main 2 hiddenWide (scandirOf [⟨lit ".cache", 1⟩, ⟨lit "a", 2⟩]) [lit "ls", lit "-l"] =
      match render 2 hiddenWide (([] : List Mem).headD (lit ".")) flagsDetailed
          ⟨1, 1, 4, 4, 6⟩ [⟨lit ".cache", 1⟩, ⟨lit "a", 2⟩] with
      | some out => some { status := 0, stdout := out, stderr := [] }
      | none => none :=
  column_lengths_over_all_entries 2 hiddenWide
    (scandirOf [⟨lit ".cache", 1⟩, ⟨lit "a", 2⟩]) [lit "ls", lit "-l"] flagsDetailed []
    [⟨lit ".cache", 1⟩, ⟨lit "a", 2⟩] ⟨1, 1, 4, 4, 6⟩ (by decide) (by decide) (by decide)
    (by decide) (by decide) (by decide) (by decide)

/-! ## Utilities -/

/-- C18 (the code departs from the claim): what `strtolower` leaves at the
destination depends on what was there. The copy length is `strlen(t) + 1`:
for the source `AB` a zero-filled block gives `a`, one byte long; a block
that holds `?`, `?`, NUL gives `ab`; and a block that holds NUL, `X`, NUL gives
`ax`, whose second character comes from the block. -/
theorem strtolower_depends_on_destination :
    cstr (strtolower (lit "AB") [0, 0, 0]) = lit "a" ∧
    cstr (strtolower (lit "AB") (lit "??" ++ [0])) = lit "ab" ∧
    cstr (strtolower (lit "AB") [0, 88, 0]) = lit "ax" ∧
    (cstr (lit "AB")).map tolower = lit "ab" := by
  decide

/-- C20 (the code departs from the claim): on the least `int` the recursion
of `intlen` never reaches a non-negative argument. The negation of `-2^31`
wraps to `-2^31`, which is negative again, so whatever the depth allowed the
call does not return. For the next value, `-2147483647`, one step is enough. -/
theorem intlen_no_return_on_int_min :
    toInt32 (- (-2147483648)) = -2147483648 ∧
    toInt32 (- (-2147483648)) < 0 ∧
    (∀ fuel : Nat, intlen fuel (-2147483648) = none) ∧
    intlen 2 (-2147483647) = some 11 ∧
    intlen 1 (-2147483647) = none :=
  ⟨by decide, by decide, intlen_int_min, by decide, by decide⟩

end Simplels
